import Mathlib

/-!
Verification development for the Autopsy browser-history ingest module
(package `phishing_detector`).  The Python (Jython 2) source is embedded
shallowly: pure helpers become Lean functions over `String` / `List Char` /
`List Nat` (byte buffers); stateful scanning code becomes explicit state
passing; Jython integer division `/` is `Int.fdiv` (floor division);
exceptions raised by external collaborators (JDBC, file manager, blackboard)
are modelled by oracle parameters of `Except` / `Bool` type, with the
`try/except` structure of the source mirrored at the same places.
-/

namespace PhishingDetector

/-- Python whitespace characters, the set used by `str.strip()` and by the
regex class `\s` in Python 2 byte-string mode. -/
def pyIsSpace (c : Char) : Bool :=
  c = ' ' || c = '\t' || c = '\n' || c = '\x0b' || c = '\x0c' || c = '\r'

/-- Python `s.strip()` over a character list. -/
def pyStrip (l : List Char) : List Char :=
  ((l.dropWhile pyIsSpace).reverse.dropWhile pyIsSpace).reverse

/-- The Python test `not s or not s.strip()` (empty or whitespace-only),
used by the emission gate and by `extract_domain`. -/
def pyBlank (s : String) : Bool :=
  s.data.isEmpty || (pyStrip s.data).isEmpty

/-- Prefix before the first occurrence of character `c`:
Python `s.split(c)[0]`. -/
def splitHead (l : List Char) (c : Char) : List Char :=
  l.takeWhile (fun x => x ≠ c)

/-- Everything after the first occurrence of the substring `pat`:
Python `s.split(pat, 1)[1]` (meaningful when `pat` occurs in `l`). -/
def afterFirstSub : List Char → List Char → List Char
  | [], _ => []
  | c :: rest, pat =>
      if pat.isPrefixOf (c :: rest) then (c :: rest).drop pat.length
      else afterFirstSub rest pat

/-- Python `pat in s` (substring containment). -/
def containsSub : List Char → List Char → Bool
  | [], pat => pat.isEmpty
  | c :: rest, pat => pat.isPrefixOf (c :: rest) || containsSub rest pat

/-- `ArtifactCreator.extract_domain` (artifact_creator.py, lines 158-187),
translated statement by statement.  Note that the source performs no
lowercasing and tests `startswith('www.')` case-sensitively. -/
def extract_domain (url : String) : String :=
  if pyBlank url then "" else
  let u0 := url.data
  let u1 :=
    if "http://".data.isPrefixOf u0 || "https://".data.isPrefixOf u0
        || "ftp://".data.isPrefixOf u0 then u0
    else "http://".data ++ u0
  let u2 := if containsSub u1 "://".data then afterFirstSub u1 "://".data else u1
  let d0 := splitHead (splitHead (splitHead u2 '/') '?') '#'
  let d1 := if d0.contains ':' then splitHead d0 ':' else d0
  let d2 := if "www.".data.isPrefixOf d1 then d1.drop 4 else d1
  String.mk d2

/-- Restatement of `extract_domain` following the amended claim wording:
prepend `http://` when no recognized scheme is present, strip everything
through the first `://`, take the substring up to the first `/`, `?` or `#`,
take the part before the first `:`, strip a leading (lowercase) `www.`;
no lowercasing. -/
def extractDomainAmended (url : String) : String :=
  if pyBlank url then "" else
  let u0 := url.data
  let u1 :=
    if "http://".data.isPrefixOf u0 || "https://".data.isPrefixOf u0
        || "ftp://".data.isPrefixOf u0 then u0
    else "http://".data ++ u0
  let u2 := afterFirstSub u1 "://".data
  let d0 := u2.takeWhile (fun c => c ≠ '/' && c ≠ '?' && c ≠ '#')
  let d1 := d0.takeWhile (fun c => c ≠ ':')
  let d2 := if "www.".data.isPrefixOf d1 then d1.drop 4 else d1
  String.mk d2

/-! Epoch conversion expressions, as written at their use sites.  The
source runs on Jython 2, where `/` on integers is floor division
(`Int.fdiv`); the binary-scanner conversion uses `//` explicitly. -/

/-- Chromium/WebKit epoch conversion
(chromium_processor.py lines 211, 284, 325, 390, 437):
`(raw - 11644473600000000) / 1000000 if raw > 0 else 0`. -/
def chromiumToUnix (raw : Int) : Int :=
  if raw > 0 then (raw - 11644473600000000).fdiv 1000000 else 0

/-- Firefox downloads-table conversion (firefox_processor.py lines 262, 300):
`raw / 1000000 if raw > 0 else 0` (microseconds since the Unix epoch). -/
def firefoxDownloadToUnix (raw : Int) : Int :=
  if raw > 0 then raw.fdiv 1000000 else 0

/-- Firefox history/bookmarks conversion (firefox_processor.py lines 208, 232):
the query already divided by 1000000, so `raw if raw > 0 else 0`. -/
def firefoxQueryToUnix (raw : Int) : Int :=
  if raw > 0 then raw else 0

/-- Safari/Mac epoch conversion (safari_edge_processor.py line 124):
`raw + 978307200 if raw > 0 else 0`. -/
def safariToUnix (raw : Int) : Int :=
  if raw > 0 then raw + 978307200 else 0

/-- The FILETIME candidate acceptance test shared by the two binary-scanner
timestamp extractors (ie_processor.py lines 320-326 and 437-442): a window
value is accepted when it exceeds the 1601-to-1970 offset and its converted
Unix value lies strictly inside the plausible calendar bound. -/
def filetimeCandidate (lo hi : Nat) (ft : Nat) : Option Nat :=
  if ft > 116444736000000000 then
    let unix := (ft - 116444736000000000) / 10000000
    if lo < unix && unix < hi then some unix else none
  else none

/-! Helper lemmas about the string pipeline. -/

theorem containsSub_append_left (l s pat : List Char)
    (h : pat.isPrefixOf s = true) : containsSub (l ++ s) pat = true := by
  induction l with
  | nil =>
      cases s with
      | nil =>
          cases pat with
          | nil => rfl
          | cons p ps => simp [List.isPrefixOf] at h
      | cons c cs => simp [containsSub, h]
  | cons a l ih => simp [containsSub, ih]

theorem isPrefixOf_self_append (pat rest : List Char) :
    pat.isPrefixOf (pat ++ rest) = true :=
  List.isPrefixOf_iff_prefix.mpr (List.prefix_append pat rest)

theorem splitHead_three (l : List Char) :
    splitHead (splitHead (splitHead l '/') '?') '#'
      = l.takeWhile (fun c => c ≠ '/' && c ≠ '?' && c ≠ '#') := by
  induction l with
  | nil => rfl
  | cons c rest ih =>
      by_cases h1 : c = '/'
      · simp [splitHead, List.takeWhile_cons, h1]
      · by_cases h2 : c = '?'
        · simp [splitHead, List.takeWhile_cons, h1, h2]
        · by_cases h3 : c = '#'
          · simp [splitHead, List.takeWhile_cons, h1, h2, h3]
          · simpa [splitHead, List.takeWhile_cons, h1, h2, h3] using ih

theorem splitHead_colon_guard (d0 : List Char) :
    (if d0.contains ':' then splitHead d0 ':' else d0)
      = d0.takeWhile (fun c => c ≠ ':') := by
  by_cases h : d0.contains ':'
  · rw [if_pos h]; rfl
  · rw [if_neg h]
    refine (List.takeWhile_eq_self_iff.mpr ?_).symm
    intro a ha
    by_contra hne
    simp only [decide_eq_true_eq, Decidable.not_not] at hne
    exact h (by subst hne; simpa using ha)

theorem containsSub_scheme_step (u0 : List Char) :
    containsSub
      (if ("http://".data.isPrefixOf u0 || "https://".data.isPrefixOf u0
            || "ftp://".data.isPrefixOf u0) = true then u0
       else "http://".data ++ u0) "://".data = true := by
  by_cases h1 : "http://".data.isPrefixOf u0 = true
  · rw [if_pos (by simp [h1])]
    obtain ⟨rest, hrest⟩ := List.isPrefixOf_iff_prefix.mp h1
    have : u0 = ['h', 't', 't', 'p'] ++ ("://".data ++ rest) := by
      rw [← hrest]; rfl
    rw [this]
    exact containsSub_append_left _ _ _ (isPrefixOf_self_append _ _)
  · by_cases h2 : "https://".data.isPrefixOf u0 = true
    · rw [if_pos (by simp [h2])]
      obtain ⟨rest, hrest⟩ := List.isPrefixOf_iff_prefix.mp h2
      have : u0 = ['h', 't', 't', 'p', 's'] ++ ("://".data ++ rest) := by
        rw [← hrest]; rfl
      rw [this]
      exact containsSub_append_left _ _ _ (isPrefixOf_self_append _ _)
    · by_cases h3 : "ftp://".data.isPrefixOf u0 = true
      · rw [if_pos (by simp [h3])]
        obtain ⟨rest, hrest⟩ := List.isPrefixOf_iff_prefix.mp h3
        have : u0 = ['f', 't', 'p'] ++ ("://".data ++ rest) := by
          rw [← hrest]; rfl
        rw [this]
        exact containsSub_append_left _ _ _ (isPrefixOf_self_append _ _)
      · rw [if_neg (by simp [h1, h2, h3])]
        have : "http://".data ++ u0 = ['h', 't', 't', 'p'] ++ ("://".data ++ u0) := rfl
        rw [this]
        exact containsSub_append_left _ _ _ (isPrefixOf_self_append _ _)

/-- C3 counterexample: on the spec's own test vector the source neither
lowercases nor strips the uppercase `WWW.` prefix, so the result is
`"WWW.Example.com"`, not `"example.com"`. -/
theorem claim_C3_counterexample :
    extract_domain "https://WWW.Example.com:8443/a?b" = "WWW.Example.com" ∧
    extract_domain "https://WWW.Example.com:8443/a?b" ≠ "example.com" := by
  constructor
  · rfl
  · decide

/-- C3 amended: `extract_domain` strips the scheme (prepending `http://`
when none of `http://`, `https://`, `ftp://` is present), takes the
substring up to the first `/`, `?` or `#`, takes the part before the first
`:`, and strips a leading `www.` only case-sensitively; it performs no
lowercasing, so the spec's vector yields `"WWW.Example.com"`. -/
theorem claim_C3_amended :
    (∀ url : String, extract_domain url = extractDomainAmended url) ∧
    extract_domain "https://WWW.Example.com:8443/a?b" = "WWW.Example.com" := by
  refine ⟨?_, rfl⟩
  intro url
  unfold extract_domain extractDomainAmended
  by_cases hb : pyBlank url
  · simp [hb]
  · simp only [hb, Bool.false_eq_true, if_false]
    rw [if_pos (containsSub_scheme_step url.data)]
    rw [splitHead_three, splitHead_colon_guard]

/-- C4 counterexample: the Chromium/WebKit conversion is evaluated with
Jython 2 floor division, so the positive raw input `1` converts to the
negative value `-11644473600`, refuting the claim that no conversion
ever produces a negative result. -/
theorem claim_C4_counterexample :
    chromiumToUnix 1 = -11644473600 ∧ chromiumToUnix 1 < 0 := by decide

theorem fdiv_neg_of_neg_of_pos {a b : Int} (ha : a < 0) (hb : 0 < b) :
    a.fdiv b < 0 := by
  by_contra h
  push_neg at h
  have h1 := Int.fdiv_add_fmod a b
  have h2 : 0 ≤ a.fmod b := by
    rw [Int.fmod_eq_emod a hb.le]
    exact Int.emod_nonneg a hb.ne'
  nlinarith

/-- C4 amended: every conversion is total and maps `raw ≤ 0` to `0`; the
Firefox, Safari and FILETIME conversions are never negative; but the
Chromium/WebKit conversion is negative exactly on raw inputs strictly
between `0` and the 1601-to-1970 microsecond offset `11644473600000000`
(floor division of a negative numerator), and non-negative from the
offset upward. -/
theorem claim_C4_amended :
    (∀ raw : Int, raw ≤ 0 →
        chromiumToUnix raw = 0 ∧ firefoxDownloadToUnix raw = 0 ∧
        firefoxQueryToUnix raw = 0 ∧ safariToUnix raw = 0) ∧
    filetimeCandidate 631152000 1893456000 0 = none ∧
    filetimeCandidate 788918400 1893456000 0 = none ∧
    (∀ raw : Int, 0 ≤ firefoxDownloadToUnix raw) ∧
    (∀ raw : Int, 0 ≤ firefoxQueryToUnix raw) ∧
    (∀ raw : Int, 0 ≤ safariToUnix raw) ∧
    (∀ lo hi ft u : Nat, filetimeCandidate lo hi ft = some u → lo < u) ∧
    (∀ raw : Int, 11644473600000000 ≤ raw → 0 ≤ chromiumToUnix raw) ∧
    (∀ raw : Int, 0 < raw → raw < 11644473600000000 → chromiumToUnix raw < 0) := by
  refine ⟨?_, by decide, by decide, ?_, ?_, ?_, ?_, ?_, ?_⟩
  · intro raw h
    simp [chromiumToUnix, firefoxDownloadToUnix, firefoxQueryToUnix, safariToUnix,
      not_lt.mpr h]
  · intro raw
    unfold firefoxDownloadToUnix
    split
    · exact Int.fdiv_nonneg (by omega) (by norm_num)
    · exact le_refl 0
  · intro raw
    unfold firefoxQueryToUnix
    split <;> omega
  · intro raw
    unfold safariToUnix
    split <;> omega
  · intro lo hi ft u h
    by_cases hft : ft > 116444736000000000
    · simp only [filetimeCandidate, if_pos hft] at h
      split at h
      · rename_i hcond
        simp only [Bool.and_eq_true, decide_eq_true_eq] at hcond
        cases h
        exact hcond.1
      · cases h
    · simp [filetimeCandidate, hft] at h
  · intro raw h
    unfold chromiumToUnix
    rw [if_pos (by omega)]
    exact Int.fdiv_nonneg (by omega) (by norm_num)
  · intro raw h1 h2
    unfold chromiumToUnix
    rw [if_pos (by omega)]
    exact fdiv_neg_of_neg_of_pos (by omega) (by norm_num)

/-- Witness for `claim_C4_amended` at concrete inputs. -/
theorem claim_C4_amended_witness :
    chromiumToUnix (-7) = 0 ∧ 0 ≤ firefoxDownloadToUnix 5000000 ∧
    0 ≤ safariToUnix 5 ∧ 0 ≤ chromiumToUnix 11644473660000000 ∧
    chromiumToUnix 1 < 0 :=
  ⟨(claim_C4_amended.1 (-7) (by norm_num)).1,
   claim_C4_amended.2.2.2.1 5000000,
   claim_C4_amended.2.2.2.2.2.1 5,
   claim_C4_amended.2.2.2.2.2.2.2.1 11644473660000000 (by norm_num),
   claim_C4_amended.2.2.2.2.2.2.2.2 1 (by norm_num) (by norm_num)⟩

/-! ## ArtifactCreator.create_url_artifact (artifact_creator.py, lines 21-156)

The module statistics mutated by the emission path, and the blackboard /
Sleuthkit collaborators, modelled by a `SinkOracle` of success flags: the
source wraps the whole body in `try/except`, attempts three `newArtifact`
fallbacks, raises on a missing classification attribute (caught by the
outer handler), and catches indexing/posting failures individually. -/

/-- One entry of `self.module.extracted_urls` (the CSV-export record). -/
structure UrlData where
  url : String
  domain : String
  timestamp : Int
  browser : String
  classification : String
  file_path : String
deriving DecidableEq, Repr

/-- The run statistics owned by the module instance
(phishing_detector_main.py, lines 130-133). -/
structure ModuleStats where
  url_count : Nat
  domain_set : List String
  browser_counts : List (String × Nat)
  extracted_urls : List UrlData
deriving DecidableEq, Repr

/-- Python `set.add`, on a duplicate-free list model. -/
def addDomain (s : List String) (d : String) : List String :=
  if s.contains d then s else s ++ [d]

/-- `browser_counts[b] = browser_counts.get(b, 0) + 1`. -/
def bumpBrowserCount : List (String × Nat) → String → List (String × Nat)
  | [], b => [(b, 1)]
  | (k, v) :: rest, b =>
      if k = b then (k, v + 1) :: rest else (k, v) :: bumpBrowserCount rest b

/-- Success flags for each failure point of the artifact-sink interaction:
`newArtifactOk` is true when any of the three `newArtifact` fallbacks
succeeds; `classificationAttrOk` when the custom attribute lookup returns a
non-null type; the remaining flags mirror `addAttributes`, `indexArtifact`
and `postArtifact`. -/
structure SinkOracle where
  newArtifactOk : Bool
  classificationAttrOk : Bool
  addAttributesOk : Bool
  indexOk : Bool
  postOk : Bool
deriving DecidableEq, Repr

/-- How one call of `create_url_artifact` ends.  The first four cases are
the early `return`s; `emitted persisted` means the record passed the gate
and was handed to the artifact sink, with `persisted` recording whether the
artifact and its attributes were actually created (a `false` here is the
outer `except` swallowing a sink failure after the statistics were already
updated). -/
inductive EmitOutcome where
  | noArtifactType
  | blankUrl
  | blankBrowser
  | badTimestamp
  | emitted (persisted : Bool)
deriving DecidableEq, Repr

/-- `ArtifactCreator.classify_url_phishing`: placeholder classifier. -/
def classify_url_phishing (_url : String) : String := "PENDING"

/-- The record was handed to the artifact sink. -/
def reachesSink : EmitOutcome → Bool
  | .emitted _ => true
  | _ => false

/-- `ArtifactCreator.create_url_artifact`, statement by statement:
artifact-type null check; domain extraction; the three gate checks
(blank url, blank browser, non-positive timestamp), each an early return;
then statistics update and record append, followed by the sink
interaction whose failures are caught and do not undo the update. -/
def create_url_artifact (artPresent : Bool) (o : SinkOracle) (st : ModuleStats)
    (sourcePath url : String) (timestamp : Int) (browser_type : String) :
    ModuleStats × EmitOutcome :=
  if !artPresent then (st, .noArtifactType)
  else
    let domain := extract_domain url
    if pyBlank url then (st, .blankUrl)
    else if pyBlank browser_type then (st, .blankBrowser)
    else if timestamp ≤ 0 then (st, .badTimestamp)
    else
      let classification := classify_url_phishing url
      let st' : ModuleStats :=
        { url_count := st.url_count + 1
          domain_set :=
            if domain ≠ "" then addDomain st.domain_set domain else st.domain_set
          browser_counts := bumpBrowserCount st.browser_counts browser_type
          extracted_urls := st.extracted_urls ++
            [⟨url, domain, timestamp, browser_type, classification, sourcePath⟩] }
      (st', .emitted (o.newArtifactOk && o.classificationAttrOk && o.addAttributesOk))

/-- C1: with the module's artifact type present (guaranteed after a
successful `startUp`), a candidate record reaches the artifact sink iff its
url is non-blank, its browser label is non-blank and its timestamp is
positive; each of the three violations independently returns early with the
statistics untouched (log + skip, and the model is a total function, so
nothing is raised). -/
theorem claim_C1_emission_gate (o : SinkOracle) (st : ModuleStats)
    (sourcePath url : String) (timestamp : Int) (browser_type : String) :
    (reachesSink (create_url_artifact true o st sourcePath url timestamp browser_type).2
      = (!pyBlank url && !pyBlank browser_type && decide (0 < timestamp))) ∧
    (pyBlank url = true →
      create_url_artifact true o st sourcePath url timestamp browser_type
        = (st, .blankUrl)) ∧
    (pyBlank url = false → pyBlank browser_type = true →
      create_url_artifact true o st sourcePath url timestamp browser_type
        = (st, .blankBrowser)) ∧
    (pyBlank url = false → pyBlank browser_type = false → timestamp ≤ 0 →
      create_url_artifact true o st sourcePath url timestamp browser_type
        = (st, .badTimestamp)) := by
  unfold create_url_artifact
  by_cases hu : pyBlank url
  · simp [hu, reachesSink]
  · by_cases hb : pyBlank browser_type
    · simp [hu, hb, reachesSink]
    · by_cases ht : timestamp ≤ 0
      · simp [hu, hb, ht, reachesSink, not_lt.mpr ht]
      · simp [hu, hb, ht, reachesSink, not_le.mp ht]

/-- Witness for `claim_C1_emission_gate`: the gate accepts a valid record,
and each of the three violations is rejected with the statistics untouched. -/
theorem claim_C1_emission_gate_witness :
    (reachesSink (create_url_artifact true ⟨true, true, true, true, true⟩
        ⟨0, [], [], []⟩ "/p/f" "http://example.com" 1577836800 "Google Chrome").2
      = true) ∧
    (create_url_artifact true ⟨true, true, true, true, true⟩ ⟨0, [], [], []⟩
        "/p/f" "   " 1577836800 "Google Chrome" = (⟨0, [], [], []⟩, .blankUrl)) ∧
    (create_url_artifact true ⟨true, true, true, true, true⟩ ⟨0, [], [], []⟩
        "/p/f" "http://example.com" 1577836800 "" = (⟨0, [], [], []⟩, .blankBrowser)) ∧
    (create_url_artifact true ⟨true, true, true, true, true⟩ ⟨0, [], [], []⟩
        "/p/f" "http://example.com" 0 "Google Chrome" = (⟨0, [], [], []⟩, .badTimestamp)) := by
  refine ⟨?_, ?_, ?_, ?_⟩
  · rw [(claim_C1_emission_gate ⟨true, true, true, true, true⟩ ⟨0, [], [], []⟩
      "/p/f" "http://example.com" 1577836800 "Google Chrome").1]
    decide
  · exact (claim_C1_emission_gate ⟨true, true, true, true, true⟩ ⟨0, [], [], []⟩
      "/p/f" "   " 1577836800 "Google Chrome").2.1 (by decide)
  · exact (claim_C1_emission_gate ⟨true, true, true, true, true⟩ ⟨0, [], [], []⟩
      "/p/f" "http://example.com" 1577836800 "").2.2.1 (by decide) (by decide)
  · exact (claim_C1_emission_gate ⟨true, true, true, true, true⟩ ⟨0, [], [], []⟩
      "/p/f" "http://example.com" 0 "Google Chrome").2.2.2 (by decide) (by decide)
      (by decide)

/-- C10: for every record passing the gate, the URL counter, domain set,
per-browser count and in-memory record list are updated before the sink is
invoked, and the update stands for every possible sink outcome; when
artifact creation fails (`newArtifactOk = false`), the outcome is
`emitted false`, so the reported count exceeds the artifacts persisted. -/
theorem claim_C10_stats_before_sink (o : SinkOracle) (st : ModuleStats)
    (sourcePath url : String) (timestamp : Int) (browser_type : String)
    (h1 : pyBlank url = false) (h2 : pyBlank browser_type = false)
    (h3 : 0 < timestamp) :
    ((create_url_artifact true o st sourcePath url timestamp browser_type).1.url_count
        = st.url_count + 1) ∧
    ((create_url_artifact true o st sourcePath url timestamp browser_type).1.extracted_urls
        = st.extracted_urls ++
          [⟨url, extract_domain url, timestamp, browser_type, "PENDING", sourcePath⟩]) ∧
    ((create_url_artifact true o st sourcePath url timestamp browser_type).1.browser_counts
        = bumpBrowserCount st.browser_counts browser_type) ∧
    ((create_url_artifact true o st sourcePath url timestamp browser_type).1.domain_set
        = if extract_domain url ≠ "" then addDomain st.domain_set (extract_domain url)
          else st.domain_set) ∧
    ((create_url_artifact true o st sourcePath url timestamp browser_type).2
        = .emitted (o.newArtifactOk && o.classificationAttrOk && o.addAttributesOk)) := by
  unfold create_url_artifact
  simp [h1, h2, not_le.mpr h3, classify_url_phishing]

/-- Witness for `claim_C10_stats_before_sink`: with every sink flag false
the counter is still incremented while nothing is persisted. -/
theorem claim_C10_stats_before_sink_witness :
    ((create_url_artifact true ⟨false, false, false, false, false⟩ ⟨0, [], [], []⟩
        "/p/f" "http://example.com" 1577836800 "Google Chrome").1.url_count = 0 + 1) ∧
    ((create_url_artifact true ⟨false, false, false, false, false⟩ ⟨0, [], [], []⟩
        "/p/f" "http://example.com" 1577836800 "Google Chrome").2 = .emitted false) :=
  ⟨(claim_C10_stats_before_sink ⟨false, false, false, false, false⟩ ⟨0, [], [], []⟩
      "/p/f" "http://example.com" 1577836800 "Google Chrome"
      (by decide) (by decide) (by decide)).1,
   (claim_C10_stats_before_sink ⟨false, false, false, false, false⟩ ⟨0, [], [], []⟩
      "/p/f" "http://example.com" 1577836800 "Google Chrome"
      (by decide) (by decide) (by decide)).2.2.2.2⟩

/-! ## Binary-scanner FILETIME extraction (ie_processor.py, lines 282-334
and 403-450).  Buffers are byte lists (`List Nat`, each entry `< 256` after
the source's `b & 0xFF`). -/

/-- Little-endian 64-bit assembly:
`filetime += (b & 0xFF) << (j * 8)` over the 8 window bytes. -/
def leVal : List Nat → Nat
  | [] => 0
  | b :: rest => b % 256 + 256 * leVal rest

/-- Python `bytes.find`: index of the first occurrence of `pat`, `none`
when absent (the source's `-1`). -/
def findSubIdx : List Nat → List Nat → Option Nat
  | [], pat => if pat.isEmpty then some 0 else none
  | b :: rest, pat =>
      if pat.isPrefixOf (b :: rest) then some 0
      else (findSubIdx rest pat).map (· + 1)

/-- One candidate window: read 8 bytes at offset `i`, decode little-endian,
and apply the FILETIME acceptance test. -/
def filetimeWindowAt (lo hi : Nat) (content : List Nat) (i : Nat) : Option Nat :=
  let bytes := (content.drop i).take 8
  if bytes.length = 8 then filetimeCandidate lo hi (leVal bytes) else none

/-- The `for i in range(i, e, step)` scan returning the first accepted
window, fuel-structured so that it evaluates; `scanWin` supplies enough
fuel. -/
def scanWinAux (lo hi : Nat) (content : List Nat) (step : Nat) :
    Nat → Nat → Nat → Nat
  | 0, _, _ => 0
  | fuel + 1, i, e =>
      if i < e then
        match filetimeWindowAt lo hi content i with
        | some u => u
        | none => scanWinAux lo hi content step fuel (i + step) e
      else 0

def scanWin (lo hi : Nat) (content : List Nat) (step i e : Nat) : Nat :=
  scanWinAux lo hi content step (e - i) i e

/-- `extract_ie_timestamp_from_buffer` (ie_processor.py, lines 282-334):
find the URL, scan 8-byte windows from 100 bytes before it to 100 bytes
past its end in steps of 4 (the loop bound is `search_end - 8`), and return
the first window accepted against the 1990-2030 bound, else 0. -/
def extract_ie_timestamp_from_buffer (content url : List Nat) : Nat :=
  match findSubIdx content url with
  | none => 0
  | some p =>
      let s := p - 100
      let e := min content.length (p + url.length + 100)
      scanWin 631152000 1893456000 content 4 s (e - 8)

/-- `extract_webcache_timestamp_from_buffer` (ie_processor.py, lines
403-450): radius 200, step 2, 1995-2030 bound. -/
def extract_webcache_timestamp_from_buffer (content url : List Nat) : Nat :=
  match findSubIdx content url with
  | none => 0
  | some p =>
      let s := p - 200
      let e := min content.length (p + url.length + 200)
      scanWin 788918400 1893456000 content 2 s (e - 8)

/-- The claim's formulation of the scanned window offsets: the arithmetic
progression from `s` with the given step, strictly below `e`. -/
def windowIndices (s e step : Nat) : List Nat :=
  List.range' s ((e - s + step - 1) / step) step

/-- The claim's formulation of timestamp association: the first window in
the progression whose FILETIME candidate is accepted, else 0. -/
def timestampSpec (lo hi radius step : Nat) (content url : List Nat) : Nat :=
  match findSubIdx content url with
  | none => 0
  | some p =>
      ((windowIndices (p - radius) (min content.length (p + url.length + radius) - 8)
          step).findSome? (filetimeWindowAt lo hi content)).getD 0

theorem windowIndices_len_pos_step (s e step : Nat) (hs : 0 < step) (h : s < e) :
    (e - s + step - 1) / step = (e - (s + step) + step - 1) / step + 1 := by
  have hd : 1 ≤ e - s := by omega
  have h1 : e - s + step - 1 = (e - s - 1) + step := by omega
  have h2 : e - (s + step) + step - 1 = if e - s ≤ step then step - 1 else e - s - 1 := by
    split <;> omega
  rw [h1, Nat.add_div_right _ hs, h2]
  split
  · rename_i hle
    rw [Nat.div_eq_of_lt (by omega), Nat.div_eq_of_lt (by omega)]
  · rename_i hgt
    have h3 : e - s - 1 = (e - s - 1 - step) + step := by omega
    rw [h3, Nat.add_div_right _ hs]

theorem scanWinAux_eq_findSome (lo hi : Nat) (content : List Nat) (step : Nat)
    (hs : 0 < step) :
    ∀ fuel i e, e - i ≤ fuel →
      scanWinAux lo hi content step fuel i e
        = ((windowIndices i e step).findSome? (filetimeWindowAt lo hi content)).getD 0 := by
  intro fuel
  induction fuel with
  | zero =>
      intro i e h
      have he : e ≤ i := by omega
      have hz : (e - i + step - 1) / step = 0 := by
        rw [Nat.sub_eq_zero_of_le he]
        exact Nat.div_eq_of_lt (by omega)
      simp [scanWinAux, windowIndices, hz]
  | succ fuel ih =>
      intro i e h
      by_cases hie : i < e
      · have hcount := windowIndices_len_pos_step i e step hs hie
        have hcons : windowIndices i e step = i :: windowIndices (i + step) e step := by
          unfold windowIndices
          rw [hcount]
          rfl
        rw [hcons]
        simp only [scanWinAux, if_pos hie, List.findSome?_cons]
        cases hcand : filetimeWindowAt lo hi content i with
        | some u => simp [hcand]
        | none =>
            simp only [hcand]
            exact ih (i + step) e (by omega)
      · have hz : (e - i + step - 1) / step = 0 := by
          have he : e - i = 0 := by omega
          rw [he]
          exact Nat.div_eq_of_lt (by omega)
        simp [scanWinAux, hie, windowIndices, hz]

/-- Bytes of `n` as an 8-byte little-endian word (test-vector helper). -/
def natLE8 (n : Nat) : List Nat :=
  [n % 256, n / 256 % 256, n / 65536 % 256, n / 16777216 % 256,
   n / 4294967296 % 256, n / 1099511627776 % 256,
   n / 281474976710656 % 256, n / 72057594037927936 % 256]

/-- C5: both binary-scanner timestamp extractors return the first 8-byte
little-endian window in the claimed progression (radius 100 step 4 for
index.dat against the 1990-2030 bound, i.e. strictly between 631152000 and
1893456000; radius 200 step 2 for WebCache against 1995-2030, strictly
between 788918400 and 1893456000; both with the
`raw > 116444736000000000` threshold) whose converted value is accepted,
else 0; concretely, a window decoding to 2015 is accepted and windows
decoding to 1700 or 2099 are rejected. -/
theorem claim_C5_filetime_association :
    (∀ content url : List Nat,
        extract_ie_timestamp_from_buffer content url
          = timestampSpec 631152000 1893456000 100 4 content url) ∧
    (∀ content url : List Nat,
        extract_webcache_timestamp_from_buffer content url
          = timestampSpec 788918400 1893456000 200 2 content url) ∧
    extract_ie_timestamp_from_buffer
        (natLE8 130645440000000000 ++ [104, 116, 116, 112]) [104, 116, 116, 112]
      = 1420070400 ∧
    extract_ie_timestamp_from_buffer
        (natLE8 31241376000000000 ++ [104, 116, 116, 112]) [104, 116, 116, 112]
      = 0 ∧
    extract_ie_timestamp_from_buffer
        (natLE8 157153824000000000 ++ [104, 116, 116, 112]) [104, 116, 116, 112]
      = 0 := by
  refine ⟨?_, ?_, by decide, by decide, by decide⟩
  · intro content url
    unfold extract_ie_timestamp_from_buffer timestampSpec
    cases findSubIdx content url with
    | none => rfl
    | some p =>
        exact scanWinAux_eq_findSome 631152000 1893456000 content 4 (by norm_num)
          _ _ _ (le_refl _)
  · intro content url
    unfold extract_webcache_timestamp_from_buffer timestampSpec
    cases findSubIdx content url with
    | none => rfl
    | some p =>
        exact scanWinAux_eq_findSome 788918400 1893456000 content 2 (by norm_num)
          _ _ _ (le_refl _)

/-! ## Binary-scanner URL detection (ie_processor.py lines 242-280 and
369-401; safari_edge_processor.py lines 208-236).

Buffer-to-text conversion:
`extract_urls_from_ie_buffer` maps printable bytes to their character,
`0` to a space and everything else to `?`; the other scanners go through
`safe_buffer_to_string`, whose bytearray branch maps printable bytes to
their character and everything else (including `0`) to `?`.
The regex `findall` scans (run with `re.IGNORECASE`) are embedded as
left-to-right non-overlapping scans; the chunked streaming of the source
is abstracted to scanning one processed window, and the per-match
cancellation poll is modelled in the run model below, not here. -/

def ieContentChar (b : Nat) : Char :=
  if 32 ≤ b && b < 127 then Char.ofNat b else if b = 0 then ' ' else '?'

def ieContent (buf : List Nat) : List Char := buf.map ieContentChar

def sbChar (b : Nat) : Char := if 32 ≤ b && b < 127 then Char.ofNat b else '?'

/-- `safe_buffer_to_string` (phishing_detector_main.py, lines 106-120) on a
Jython bytearray (which has no `tostring`). -/
def safe_buffer_to_string (buf : List Nat) : List Char := buf.map sbChar

/-- Case-insensitive character comparison, as `re.IGNORECASE` performs. -/
def ciEq (p c : Char) : Bool := p.toLower == c.toLower

/-- Case-insensitive literal match of `pat` at the head of `l`. -/
def ciHasPref : List Char → List Char → Bool
  | [], _ => true
  | _ :: _, [] => false
  | p :: ps, c :: cs => ciEq p c && ciHasPref ps cs

/-- The regex class `[^\s\x00-\x1f\x7f-\xff]` of the scheme patterns. -/
def urlAllowed (c : Char) : Bool :=
  !pyIsSpace c && !(c.toNat ≤ 31) && !(127 ≤ c.toNat && c.toNat ≤ 255)

/-- The regex class `[a-zA-Z0-9-]` of the bare-`www.` pattern. -/
def wwwClass1 (c : Char) : Bool := c.isAlpha || c.isDigit || c = '-'

/-- The regex class `[^\s\x00-\x1f]` closing the bare-`www.` pattern. -/
def wwwRest (c : Char) : Bool := !pyIsSpace c && !(c.toNat ≤ 31)

/-- `re.findall` for a pattern of the shape `literal ++ [allowed]+`:
at each position try the case-insensitive literal followed by a non-empty
maximal allowed run; on success resume after the match, otherwise advance
one character.  Fuel-structured (`l.length` suffices). -/
def scanPat (pat : List Char) (allowed : Char → Bool) :
    Nat → List Char → List (List Char)
  | 0, _ => []
  | _ + 1, [] => []
  | fuel + 1, c :: rest =>
      if ciHasPref pat (c :: rest) then
        let after := (c :: rest).drop pat.length
        let run := after.takeWhile allowed
        if 0 < run.length then
          ((c :: rest).take pat.length ++ run) ::
            scanPat pat allowed fuel (after.drop run.length)
        else scanPat pat allowed fuel rest
      else scanPat pat allowed fuel rest

def scanPattern (pat : List Char) (allowed : Char → Bool) (l : List Char) :
    List (List Char) :=
  scanPat pat allowed l.length l

/-- One anchored attempt of the pattern
`www\.[a-zA-Z0-9-]+\.[a-zA-Z]{2,}[^\s\x00-\x1f]*`: since `[a-zA-Z0-9-]`
cannot consume `.` and `[a-zA-Z]` is contained in the closing class, the
greedy engine deterministically takes the maximal first run, a literal dot,
then the maximal closing run, which must begin with at least two letters.
Returns the match and its consumed length. -/
def wwwMatchAt (l : List Char) : Option (List Char × Nat) :=
  if ciHasPref "www.".data l then
    if 0 < ((l.drop 4).takeWhile wwwClass1).length then
      match (l.drop 4).drop ((l.drop 4).takeWhile wwwClass1).length with
      | c2 :: rest2 =>
          if c2 = '.' then
            if 2 ≤ (rest2.takeWhile (fun c => c.isAlpha)).length then
              some (l.take 4 ++ (l.drop 4).takeWhile wwwClass1 ++
                  '.' :: rest2.takeWhile wwwRest,
                4 + ((l.drop 4).takeWhile wwwClass1).length + 1 +
                  (rest2.takeWhile wwwRest).length)
            else none
          else none
      | [] => none
    else none
  else none

/-- `re.findall` for the bare-`www.` pattern. -/
def scanW : Nat → List Char → List (List Char)
  | 0, _ => []
  | _ + 1, [] => []
  | fuel + 1, c :: rest =>
      match wwwMatchAt (c :: rest) with
      | some (m, k) => m :: scanW fuel ((c :: rest).drop (max 1 k))
      | none => scanW fuel rest

def scanWww (l : List Char) : List (List Char) := scanW l.length l

/-- `re.sub(r'[\x00-\x1f\x7f-\xff]', '', url)`. -/
def cleanUrl (l : List Char) : List Char :=
  l.filter (fun c => !(c.toNat ≤ 31 || (127 ≤ c.toNat && c.toNat ≤ 255)))

def strBytes (s : String) : List Nat := s.data.map Char.toNat

/-- `extract_urls_from_ie_buffer` (ie_processor.py, lines 242-280):
scheme patterns only, cleanup, length gate `> 10`, FILETIME association. -/
def extract_urls_from_ie_buffer (buf : List Nat) : List (String × Nat) :=
  let content := ieContent buf
  ["http://".data, "https://".data, "ftp://".data].flatMap fun pat =>
    (scanPattern pat urlAllowed content).filterMap fun m =>
      let clean := cleanUrl m
      if 10 < clean.length then
        some (String.mk clean,
          extract_ie_timestamp_from_buffer buf (clean.map Char.toNat))
      else none

/-- `extract_urls_from_webcache_buffer` (ie_processor.py, lines 369-401):
scheme patterns plus bare `www.`, cleanup, length gate, `http://`
prepended to a (case-sensitively) `www.`-leading URL before the FILETIME
association. -/
def extract_urls_from_webcache_buffer (buf : List Nat) : List (String × Nat) :=
  let content := safe_buffer_to_string buf
  let ms := (["http://".data, "https://".data, "ftp://".data].flatMap fun pat =>
      scanPattern pat urlAllowed content) ++ scanWww content
  ms.filterMap fun m =>
    let clean := cleanUrl m
    if 10 < clean.length then
      let finalUrl :=
        if "www.".data.isPrefixOf clean then "http://".data ++ clean else clean
      some (String.mk finalUrl,
        extract_webcache_timestamp_from_buffer buf (finalUrl.map Char.toNat))
    else none

/-- `extract_urls_from_edge_buffer` (safari_edge_processor.py, lines
208-236): `http://`, `https://`, `microsoft-edge:` and bare `www.`
patterns (no `ftp://`), and the timestamp is the constant 0. -/
def extract_urls_from_edge_buffer (buf : List Nat) : List (String × Nat) :=
  let content := safe_buffer_to_string buf
  let ms := (["http://".data, "https://".data, "microsoft-edge:".data].flatMap fun pat =>
      scanPattern pat urlAllowed content) ++ scanWww content
  ms.filterMap fun m =>
    let clean := cleanUrl m
    if 10 < clean.length then
      let finalUrl :=
        if "www.".data.isPrefixOf clean then "http://".data ++ clean else clean
      some (String.mk finalUrl, 0)
    else none

/-! Lemmas about the scanner embeddings. -/

theorem ciHasPref_take_append {pat l : List Char} (r : List Char)
    (h : ciHasPref pat l = true) :
    ciHasPref pat (l.take pat.length ++ r) = true := by
  induction pat generalizing l with
  | nil => rfl
  | cons p ps ih =>
      cases l with
      | nil => simp [ciHasPref] at h
      | cons c cs =>
          simp only [ciHasPref, Bool.and_eq_true] at h
          simpa [ciHasPref, h.1] using ih h.2

theorem ciHasPref_refl_append (pat r : List Char) :
    ciHasPref pat (pat ++ r) = true := by
  induction pat with
  | nil => rfl
  | cons p ps ih => simpa [ciHasPref, ciEq] using ih

theorem charOfNat_toNat {b : Nat} (h2 : b < 127) : (Char.ofNat b).toNat = b := by
  have hv : Nat.isValidChar b := Or.inl (by omega)
  simp only [Char.ofNat, hv, dif_pos, Char.ofNatAux, Char.toNat]
  rfl

theorem ieContent_printable {buf : List Nat} :
    ∀ c ∈ ieContent buf, 32 ≤ c.toNat ∧ c.toNat ≤ 126 := by
  intro c hc
  obtain ⟨b, _, rfl⟩ := List.mem_map.mp hc
  unfold ieContentChar
  split
  · rename_i hb
    simp only [Bool.and_eq_true, decide_eq_true_eq] at hb
    rw [charOfNat_toNat hb.2]
    omega
  · split <;> simp

theorem sbs_printable {buf : List Nat} :
    ∀ c ∈ safe_buffer_to_string buf, 32 ≤ c.toNat ∧ c.toNat ≤ 126 := by
  intro c hc
  obtain ⟨b, _, rfl⟩ := List.mem_map.mp hc
  unfold sbChar
  split
  · rename_i hb
    simp only [Bool.and_eq_true, decide_eq_true_eq] at hb
    rw [charOfNat_toNat hb.2]
    omega
  · simp

theorem cleanUrl_of_printable {m : List Char}
    (h : ∀ c ∈ m, 32 ≤ c.toNat ∧ c.toNat ≤ 126) : cleanUrl m = m := by
  refine List.filter_eq_self.mpr fun a ha => ?_
  have h2 := h a ha
  simp only [Bool.not_eq_true', Bool.or_eq_false_iff, Bool.and_eq_false_iff,
    decide_eq_false_iff_not]
  omega

theorem scanPat_mem {pat : List Char} {allowed : Char → Bool} :
    ∀ {fuel : Nat} {l m : List Char}, m ∈ scanPat pat allowed fuel l →
      ∃ l', l' <:+ l ∧ ciHasPref pat l' = true ∧
        m = l'.take pat.length ++ (l'.drop pat.length).takeWhile allowed := by
  intro fuel
  induction fuel with
  | zero => intro l m h; simp [scanPat] at h
  | succ fuel ih =>
      intro l m h
      cases l with
      | nil => simp [scanPat] at h
      | cons c rest =>
          simp only [scanPat] at h
          by_cases hp : ciHasPref pat (c :: rest) = true
          · rw [if_pos hp] at h
            by_cases hr :
                0 < (((c :: rest).drop pat.length).takeWhile allowed).length
            · rw [if_pos hr] at h
              rcases List.mem_cons.mp h with hm | hm
              · exact ⟨c :: rest, List.suffix_refl _, hp, hm⟩
              · obtain ⟨l', hsuf, hpre, hdecomp⟩ := ih hm
                refine ⟨l', hsuf.trans ?_, hpre, hdecomp⟩
                exact (List.drop_suffix _ _).trans (List.drop_suffix _ _)
            · rw [if_neg hr] at h
              obtain ⟨l', hsuf, hpre, hdecomp⟩ := ih h
              exact ⟨l', hsuf.trans (List.suffix_cons c rest), hpre, hdecomp⟩
          · rw [if_neg hp] at h
            obtain ⟨l', hsuf, hpre, hdecomp⟩ := ih h
            exact ⟨l', hsuf.trans (List.suffix_cons c rest), hpre, hdecomp⟩

theorem scanPat_chars {pat : List Char} {allowed : Char → Bool}
    {fuel : Nat} {l m : List Char} (h : m ∈ scanPat pat allowed fuel l) :
    ∀ c ∈ m, c ∈ l := by
  obtain ⟨l', hsuf, _, hdecomp⟩ := scanPat_mem h
  intro c hc
  rw [hdecomp] at hc
  rcases List.mem_append.mp hc with hc | hc
  · exact hsuf.subset (List.take_subset _ _ hc)
  · exact hsuf.subset
      (List.drop_subset _ _ ((List.takeWhile_sublist _).subset hc))

theorem scanPat_ci {pat : List Char} {allowed : Char → Bool}
    {fuel : Nat} {l m : List Char} (h : m ∈ scanPat pat allowed fuel l) :
    ciHasPref pat m = true := by
  obtain ⟨l', _, hpre, hdecomp⟩ := scanPat_mem h
  rw [hdecomp]
  exact ciHasPref_take_append _ hpre

theorem wwwMatchAt_some {l m : List Char} {k : Nat}
    (h : wwwMatchAt l = some (m, k)) :
    ciHasPref "www.".data m = true ∧ ∀ c ∈ m, c ∈ l := by
  unfold wwwMatchAt at h
  split at h
  · rename_i hp
    split at h
    · rename_i hr
      split at h
      · rename_i c2 rest2 hd
        split at h
        · rename_i hdot
          subst hdot
          split at h
          · injection h with h1
            injection h1 with hm hk
            subst hm
            constructor
            · rw [List.append_assoc]
              have h4 : ("www.".data).length = 4 := rfl
              conv_lhs => rw [← h4]
              exact ciHasPref_take_append _ hp
            · intro c hc
              rcases List.mem_append.mp hc with hc | hc
              · rcases List.mem_append.mp hc with hc | hc
                · exact List.take_subset _ _ hc
                · exact List.drop_subset _ _
                    ((List.takeWhile_sublist _).subset hc)
              · have hmem : c ∈ '.' :: rest2 := by
                  rcases List.mem_cons.mp hc with hc | hc
                  · exact hc ▸ List.mem_cons_self _ _
                  · exact List.mem_cons_of_mem _
                      ((List.takeWhile_sublist _).subset hc)
                rw [← hd] at hmem
                exact List.drop_subset _ _ (List.drop_subset _ _ hmem)
          · cases h
        · cases h
      · cases h
    · cases h
  · cases h

theorem scanW_mem :
    ∀ {fuel : Nat} {l m : List Char}, m ∈ scanW fuel l →
      ∃ l' k, l' <:+ l ∧ wwwMatchAt l' = some (m, k) := by
  intro fuel
  induction fuel with
  | zero => intro l m h; simp [scanW] at h
  | succ fuel ih =>
      intro l m h
      cases l with
      | nil => simp [scanW] at h
      | cons c rest =>
          simp only [scanW] at h
          cases hw : wwwMatchAt (c :: rest) with
          | some mk =>
              rw [hw] at h
              rcases List.mem_cons.mp h with hm | hm
              · exact ⟨c :: rest, mk.2, List.suffix_refl _, by rw [hw, hm]⟩
              · obtain ⟨l', k, hsuf, hmt⟩ := ih hm
                exact ⟨l', k, hsuf.trans (List.drop_suffix _ _), hmt⟩
          | none =>
              rw [hw] at h
              obtain ⟨l', k, hsuf, hmt⟩ := ih h
              exact ⟨l', k, hsuf.trans (List.suffix_cons c rest), hmt⟩

theorem not_www_of_http (r : List Char) :
    "www.".data.isPrefixOf ("http://".data ++ r) = false := by
  show "www.".data.isPrefixOf ('h' :: ("ttp://".data ++ r)) = false
  simp [List.isPrefixOf]

/-- Shared postprocessing facts for the WebCache/Edge scanners: a printable
match that survives the length gate yields a final URL of length at least
11, printable, never starting (case-sensitively) with `www.`, and starting
case-insensitively with `http://` or with the originating pattern. -/
theorem postAssemble {m : List Char} {u : String} {pat : List Char}
    (hprint : ∀ c ∈ m, 32 ≤ c.toNat ∧ c.toNat ≤ 126)
    (hlen : 10 < (cleanUrl m).length)
    (hci : ciHasPref pat m = true)
    (hu : u.data = if "www.".data.isPrefixOf (cleanUrl m)
        then "http://".data ++ cleanUrl m else cleanUrl m) :
    11 ≤ u.data.length ∧ (∀ c ∈ u.data, 32 ≤ c.toNat ∧ c.toNat ≤ 126) ∧
    "www.".data.isPrefixOf u.data = false ∧
    (ciHasPref "http://".data u.data = true ∨ ciHasPref pat u.data = true) := by
  have hcm : cleanUrl m = m := cleanUrl_of_printable hprint
  by_cases hwp : "www.".data.isPrefixOf (cleanUrl m) = true
  · rw [if_pos hwp] at hu
    refine ⟨?_, ?_, ?_, Or.inl ?_⟩
    · rw [hu, List.length_append]
      omega
    · have hhp : ∀ c ∈ ("http://".data : List Char),
          32 ≤ c.toNat ∧ c.toNat ≤ 126 := by decide
      intro c hc
      rw [hu] at hc
      rcases List.mem_append.mp hc with hc | hc
      · exact hhp c hc
      · exact hprint c (hcm ▸ hc)
    · rw [hu]
      exact not_www_of_http _
    · rw [hu]
      exact ciHasPref_refl_append _ _
  · rw [if_neg hwp] at hu
    refine ⟨?_, ?_, ?_, Or.inr ?_⟩
    · rw [hu]; omega
    · intro c hc
      rw [hu] at hc
      exact hprint c (hcm ▸ hc)
    · rw [hu]
      exact Bool.not_eq_true _ ▸ (by simpa using hwp)
    · rw [hu, hcm]
      exact hci

/-- C8 counterexample: the Edge Legacy scanner also carries a
`microsoft-edge:` pattern, so it hands the emission gate a URL matching
none of the enumerated prefixes (`http://`, `https://`, `ftp://`, bare
`www.`), even case-insensitively. -/
theorem claim_C8_counterexample :
    ("microsoft-edge:abcdefgh", 0) ∈
      extract_urls_from_edge_buffer (strBytes "microsoft-edge:abcdefgh") ∧
    ciHasPref "http://".data "microsoft-edge:abcdefgh".data = false ∧
    ciHasPref "https://".data "microsoft-edge:abcdefgh".data = false ∧
    ciHasPref "ftp://".data "microsoft-edge:abcdefgh".data = false ∧
    ciHasPref "www.".data "microsoft-edge:abcdefgh".data = false := by
  decide

/-- C8 amended: every URL a binary scanner hands to the emission gate has
length at least 11 after cleanup, consists only of printable ASCII
characters (control/extended bytes stripped or replaced during buffer
decoding), and starts case-insensitively with one of that scanner's
patterns: `http://`, `https://`, `ftp://` for the index.dat scanner; those
three or bare `www.` for the WebCache scanner; `http://`, `https://`,
`microsoft-edge:` or bare `www.` (no `ftp://`) for the Edge Legacy
scanner.  In the WebCache/Edge scanners a match starting with lowercase
`www.` gets `http://` prepended, so no emitted URL starts with `www.`
case-sensitively. -/
theorem claim_C8_amended :
    (∀ (buf : List Nat) (u : String) (t : Nat),
        (u, t) ∈ extract_urls_from_ie_buffer buf →
        11 ≤ u.data.length ∧
        (∀ c ∈ u.data, 32 ≤ c.toNat ∧ c.toNat ≤ 126) ∧
        (ciHasPref "http://".data u.data = true ∨
         ciHasPref "https://".data u.data = true ∨
         ciHasPref "ftp://".data u.data = true)) ∧
    (∀ (buf : List Nat) (u : String) (t : Nat),
        (u, t) ∈ extract_urls_from_webcache_buffer buf →
        11 ≤ u.data.length ∧
        (∀ c ∈ u.data, 32 ≤ c.toNat ∧ c.toNat ≤ 126) ∧
        "www.".data.isPrefixOf u.data = false ∧
        (ciHasPref "http://".data u.data = true ∨
         ciHasPref "https://".data u.data = true ∨
         ciHasPref "ftp://".data u.data = true ∨
         ciHasPref "www.".data u.data = true)) ∧
    (∀ (buf : List Nat) (u : String) (t : Nat),
        (u, t) ∈ extract_urls_from_edge_buffer buf →
        11 ≤ u.data.length ∧
        (∀ c ∈ u.data, 32 ≤ c.toNat ∧ c.toNat ≤ 126) ∧
        "www.".data.isPrefixOf u.data = false ∧
        (ciHasPref "http://".data u.data = true ∨
         ciHasPref "https://".data u.data = true ∨
         ciHasPref "microsoft-edge:".data u.data = true ∨
         ciHasPref "www.".data u.data = true)) := by
  refine ⟨?_, ?_, ?_⟩
  · intro buf u t h
    simp only [extract_urls_from_ie_buffer] at h
    obtain ⟨pat, hpat, hm⟩ := List.mem_flatMap.mp h
    obtain ⟨m, hscan, hf⟩ := List.mem_filterMap.mp hm
    have hchars : ∀ c ∈ m, c ∈ ieContent buf := scanPat_chars hscan
    have hprint : ∀ c ∈ m, 32 ≤ c.toNat ∧ c.toNat ≤ 126 :=
      fun c hc => ieContent_printable c (hchars c hc)
    have hcm : cleanUrl m = m := cleanUrl_of_printable hprint
    split at hf
    · rename_i hlen
      injection hf with h1
      injection h1 with hu ht
      have hud : u.data = cleanUrl m := by rw [← hu]
      refine ⟨by rw [hud]; omega, ?_, ?_⟩
      · intro c hc
        rw [hud, hcm] at hc
        exact hprint c hc
      · have hci : ciHasPref pat u.data = true := by
          rw [hud, hcm]
          exact scanPat_ci hscan
        simp only [List.mem_cons, List.mem_singleton, List.not_mem_nil] at hpat
        rcases hpat with rfl | rfl | rfl | hfalse
        · exact Or.inl hci
        · exact Or.inr (Or.inl hci)
        · exact Or.inr (Or.inr hci)
        · cases hfalse
    · cases hf
  · intro buf u t h
    simp only [extract_urls_from_webcache_buffer] at h
    obtain ⟨m, hmem, hf⟩ := List.mem_filterMap.mp h
    have hbase : ciHasPref "http://".data m = true ∨
        ciHasPref "https://".data m = true ∨
        ciHasPref "ftp://".data m = true ∨
        ciHasPref "www.".data m = true := by
      rcases List.mem_append.mp hmem with hmem | hmem
      · obtain ⟨pat, hpat, hscan⟩ := List.mem_flatMap.mp hmem
        simp only [List.mem_cons, List.mem_singleton, List.not_mem_nil] at hpat
        rcases hpat with rfl | rfl | rfl | hfalse
        · exact Or.inl (scanPat_ci hscan)
        · exact Or.inr (Or.inl (scanPat_ci hscan))
        · exact Or.inr (Or.inr (Or.inl (scanPat_ci hscan)))
        · cases hfalse
      · obtain ⟨l', k, _, hmt⟩ := scanW_mem hmem
        exact Or.inr (Or.inr (Or.inr (wwwMatchAt_some hmt).1))
    have hchars : ∀ c ∈ m, c ∈ safe_buffer_to_string buf := by
      rcases List.mem_append.mp hmem with hmem | hmem
      · obtain ⟨pat, _, hscan⟩ := List.mem_flatMap.mp hmem
        exact scanPat_chars hscan
      · obtain ⟨l', k, hsuf, hmt⟩ := scanW_mem hmem
        exact fun c hc => hsuf.subset ((wwwMatchAt_some hmt).2 c hc)
    have hprint : ∀ c ∈ m, 32 ≤ c.toNat ∧ c.toNat ≤ 126 :=
      fun c hc => sbs_printable c (hchars c hc)
    split at hf
    · rename_i hlen
      injection hf with h1
      injection h1 with hu ht
      have hud : u.data = if "www.".data.isPrefixOf (cleanUrl m)
          then "http://".data ++ cleanUrl m else cleanUrl m := by rw [← hu]
      rcases hbase with hb | hb | hb | hb
      · obtain ⟨p1, p2, p3, p4⟩ := postAssemble hprint hlen hb hud
        exact ⟨p1, p2, p3, p4.elim Or.inl Or.inl⟩
      · obtain ⟨p1, p2, p3, p4⟩ := postAssemble hprint hlen hb hud
        exact ⟨p1, p2, p3, p4.elim Or.inl (Or.inr ∘ Or.inl)⟩
      · obtain ⟨p1, p2, p3, p4⟩ := postAssemble hprint hlen hb hud
        exact ⟨p1, p2, p3, p4.elim Or.inl (Or.inr ∘ Or.inr ∘ Or.inl)⟩
      · obtain ⟨p1, p2, p3, p4⟩ := postAssemble hprint hlen hb hud
        exact ⟨p1, p2, p3, p4.elim Or.inl (Or.inr ∘ Or.inr ∘ Or.inr)⟩
    · cases hf
  · intro buf u t h
    simp only [extract_urls_from_edge_buffer] at h
    obtain ⟨m, hmem, hf⟩ := List.mem_filterMap.mp h
    have hbase : ciHasPref "http://".data m = true ∨
        ciHasPref "https://".data m = true ∨
        ciHasPref "microsoft-edge:".data m = true ∨
        ciHasPref "www.".data m = true := by
      rcases List.mem_append.mp hmem with hmem | hmem
      · obtain ⟨pat, hpat, hscan⟩ := List.mem_flatMap.mp hmem
        simp only [List.mem_cons, List.mem_singleton, List.not_mem_nil] at hpat
        rcases hpat with rfl | rfl | rfl | hfalse
        · exact Or.inl (scanPat_ci hscan)
        · exact Or.inr (Or.inl (scanPat_ci hscan))
        · exact Or.inr (Or.inr (Or.inl (scanPat_ci hscan)))
        · cases hfalse
      · obtain ⟨l', k, _, hmt⟩ := scanW_mem hmem
        exact Or.inr (Or.inr (Or.inr (wwwMatchAt_some hmt).1))
    have hchars : ∀ c ∈ m, c ∈ safe_buffer_to_string buf := by
      rcases List.mem_append.mp hmem with hmem | hmem
      · obtain ⟨pat, _, hscan⟩ := List.mem_flatMap.mp hmem
        exact scanPat_chars hscan
      · obtain ⟨l', k, hsuf, hmt⟩ := scanW_mem hmem
        exact fun c hc => hsuf.subset ((wwwMatchAt_some hmt).2 c hc)
    have hprint : ∀ c ∈ m, 32 ≤ c.toNat ∧ c.toNat ≤ 126 :=
      fun c hc => sbs_printable c (hchars c hc)
    split at hf
    · rename_i hlen
      injection hf with h1
      injection h1 with hu ht
      have hud : u.data = if "www.".data.isPrefixOf (cleanUrl m)
          then "http://".data ++ cleanUrl m else cleanUrl m := by rw [← hu]
      rcases hbase with hb | hb | hb | hb
      · obtain ⟨p1, p2, p3, p4⟩ := postAssemble hprint hlen hb hud
        exact ⟨p1, p2, p3, p4.elim Or.inl Or.inl⟩
      · obtain ⟨p1, p2, p3, p4⟩ := postAssemble hprint hlen hb hud
        exact ⟨p1, p2, p3, p4.elim Or.inl (Or.inr ∘ Or.inl)⟩
      · obtain ⟨p1, p2, p3, p4⟩ := postAssemble hprint hlen hb hud
        exact ⟨p1, p2, p3, p4.elim Or.inl (Or.inr ∘ Or.inr ∘ Or.inl)⟩
      · obtain ⟨p1, p2, p3, p4⟩ := postAssemble hprint hlen hb hud
        exact ⟨p1, p2, p3, p4.elim Or.inl (Or.inr ∘ Or.inr ∘ Or.inr)⟩
    · cases hf

/-- Witness for `claim_C8_amended` at a concrete buffer. -/
theorem claim_C8_amended_witness :
    11 ≤ ("http://example.com/a" : String).data.length ∧
    ciHasPref "www.".data ("http://www.example.net/a" : String).data = false :=
  ⟨(claim_C8_amended.1 (strBytes "xx http://example.com/a") "http://example.com/a" 0
      (by decide)).1,
   (claim_C8_amended.2.1 (strBytes "zz www.example.net/a zz")
      "http://www.example.net/a" 0 (by decide)).2.2.1⟩

/-! ## Run model: coordinator and family processors.

`UrlPhishingIngestModule.process` (phishing_detector_main.py, lines
212-277) drives the four family processors sequentially.  The model
threads a `RunSt` through every loop of the source: `polls` counts calls
of `dataSourceIngestIsCancelled` (the host signal is an oracle
`sig : Nat → Bool` giving the value returned by the n-th poll), `opened`
records the files handed to a content-reading `parse_*` function in
order, and `gateIn` records the records handed to `create_url_artifact`.
External collaborators are oracles in `Env`; a `.error` value of an
`Except`-typed oracle stands for an exception raised by that collaborator,
absorbed exactly where the source's `try/except` sits.  The binary
scanners' chunked reads are abstracted by the `scanUrls` oracle giving the
per-file match list (their pure scanning logic is verified separately
above). -/

structure CandFile where
  fid : Nat
  parentPath : String
  isFile : Bool
  size : Nat
deriving DecidableEq, Repr

structure Row where
  url : String
  raw : Int
deriving DecidableEq, Repr

structure GateRec where
  fid : Nat
  url : String
  ts : Int
  browser : String
deriving DecidableEq, Repr

structure RunSt where
  polls : Nat
  opened : List Nat
  gateIn : List GateRec
deriving DecidableEq, Repr

structure Env where
  sig : Nat → Bool
  findFilesR : String → String → Except Unit (List CandFile)
  connectOk : Nat → Bool
  dbRows : Nat → String → Except Unit (List Row)
  tableExists : Nat → Bool
  scanUrls : Nat → List (String × Int)
  bookmarkUrl : Nat → Option String

def poll (sig : Nat → Bool) (st : RunSt) : Bool × RunSt :=
  (sig st.polls, { st with polls := st.polls + 1 })

def markOpened (fid : Nat) (st : RunSt) : RunSt :=
  { st with opened := st.opened ++ [fid] }

def emitRec (r : GateRec) (st : RunSt) : RunSt :=
  { st with gateIn := st.gateIn ++ [r] }

/-- The `while resultSet.next()` loops: poll before each row, break on
cancellation, otherwise convert and hand to `create_url_artifact`. -/
def rowLoop (sig : Nat → Bool) (fid : Nat) (browser : String) (conv : Int → Int) :
    List Row → RunSt → RunSt
  | [], st => st
  | r :: rest, st =>
      let p := poll sig st
      if p.1 then p.2
      else rowLoop sig fid browser conv rest (emitRec ⟨fid, r.url, conv r.raw, browser⟩ p.2)

/-- The `for url in matches` loops of the binary scanners: poll before each
match, break on cancellation. -/
def urlLoop (sig : Nat → Bool) (fid : Nat) (browser : String) :
    List (String × Int) → RunSt → RunSt
  | [], st => st
  | ut :: rest, st =>
      let p := poll sig st
      if p.1 then p.2
      else urlLoop sig fid browser rest (emitRec ⟨fid, ut.1, ut.2, browser⟩ p.2)

/-- Python `not f.isFile() or f.getSize() == 0` (the `continue` filter). -/
def skipFile (f : CandFile) : Bool := !f.isFile || f.size == 0

/-- The candidate-file loops shared by every family processor: skip
non-regular/empty files without polling, poll before each remaining file,
return on cancellation, otherwise dispatch to `parse`. -/
def fileLoop (sig : Nat → Bool) (parse : CandFile → RunSt → RunSt) :
    List CandFile → RunSt → RunSt
  | [], st => st
  | f :: rest, st =>
      if skipFile f then fileLoop sig parse rest st
      else
        let p := poll sig st
        if p.1 then p.2
        else fileLoop sig parse rest (parse f p.2)

/-- `CHROMIUM_BROWSERS` (browser_constants.py, lines 8-17), in source
order (the Jython dict iteration order is fixed for the model). -/
def CHROMIUM_BROWSERS : List (String × String) :=
  [("Google Chrome", "Chrome/User Data"),
   ("Microsoft Edge", "Microsoft/Edge/User Data"),
   ("Brave", "BraveSoftware/Brave-Browser/User Data"),
   ("UC Browser", "UCBrowser/User Data"),
   ("Yandex", "YandexBrowser/User Data"),
   ("Opera", "Opera Software/Opera Stable"),
   ("SalamWeb", "SalamWeb/User Data"),
   ("Chromium", "Chromium/User Data")]

/-- Python `s.split()`: whitespace-run word splitting. -/
def wordsAux : List Char → List Char → List (List Char)
  | [], acc => if acc.isEmpty then [] else [acc.reverse]
  | c :: rest, acc =>
      if pyIsSpace c then
        if acc.isEmpty then wordsAux rest []
        else acc.reverse :: wordsAux rest []
      else wordsAux rest (c :: acc)

def pySplitWords (s : String) : List String :=
  (wordsAux s.data []).map String.mk

/-- `any(browser.lower() in file_path for browser in browser_name.split())`
with `file_path = history_file.getParentPath().lower()`
(chromium_processor.py, lines 61-62). -/
def chromiumPathMatch (browser_name : String) (f : CandFile) : Bool :=
  (pySplitWords browser_name).any fun w =>
    containsSub (f.parentPath.data.map Char.toLower) (w.data.map Char.toLower)

/-- `parse_chromium_history_database` in the run model: the file is read
(scratch copy written), connect+query may raise (absorbed by the handlers
at lines 222-225), then the row loop with the Chromium epoch conversion. -/
def parse_chromium_history_database (env : Env) (f : CandFile) (browser : String)
    (st : RunSt) : RunSt :=
  let st1 := markOpened f.fid st
  match env.dbRows f.fid "CHROMIUM_HISTORY" with
  | .error _ => st1
  | .ok rows => rowLoop env.sig f.fid browser chromiumToUnix rows st1

/-- `process_chromium_history` (chromium_processor.py, lines 48-66):
a `findFiles` failure is absorbed by its own handler. -/
def process_chromium_history (env : Env) (browser_name browser_path : String)
    (st : RunSt) : RunSt :=
  match env.findFilesR "History" browser_path with
  | .error _ => st
  | .ok files =>
      fileLoop env.sig
        (fun f s => if chromiumPathMatch browser_name f
          then parse_chromium_history_database env f browser_name s else s)
        files st

/-- The browser loop of `process_all_chromium_browsers` (lines 27-46):
poll per browser, history only. -/
def browsersLoop (env : Env) : List (String × String) → RunSt → RunSt
  | [], st => st
  | bp :: rest, st =>
      let p := poll env.sig st
      if p.1 then p.2
      else browsersLoop env rest (process_chromium_history env bp.1 bp.2 p.2)

def process_all_chromium_browsers (env : Env) (st : RunSt) : RunSt :=
  browsersLoop env CHROMIUM_BROWSERS st

/-- `'firefox' in file_path` (firefox_processor.py, line 73). -/
def firefoxPathMatch (f : CandFile) : Bool :=
  containsSub (f.parentPath.data.map Char.toLower) "firefox".data

/-- `parse_firefox_history_from_db` (lines 192-215); its own
`except SQLException` absorbs a query failure without aborting the caller. -/
def parse_firefox_history_from_db (env : Env) (fid : Nat) (browser : String)
    (st : RunSt) : RunSt :=
  match env.dbRows fid "FIREFOX_HISTORY" with
  | .error _ => st
  | .ok rows => rowLoop env.sig fid browser firefoxQueryToUnix rows st

/-- `parse_firefox_bookmarks_from_db` (lines 217-239). -/
def parse_firefox_bookmarks_from_db (env : Env) (fid : Nat) (browser : String)
    (st : RunSt) : RunSt :=
  match env.dbRows fid "FIREFOX_BOOKMARKS" with
  | .error _ => st
  | .ok rows => rowLoop env.sig fid browser firefoxQueryToUnix rows st

/-- `parse_firefox_downloads_from_places` (lines 241-271): queried only
when the `moz_downloads` table exists. -/
def parse_firefox_downloads_from_places (env : Env) (fid : Nat) (browser : String)
    (st : RunSt) : RunSt :=
  if env.tableExists fid then
    match env.dbRows fid "FIREFOX_DOWNLOADS_PRE24" with
    | .error _ => st
    | .ok rows => rowLoop env.sig fid browser firefoxDownloadToUnix rows st
  else st

/-- `parse_firefox_places_database` (lines 159-190): one scratch copy and
connection, then history, bookmarks and downloads parsed in sequence. -/
def parse_firefox_places_database (env : Env) (f : CandFile) (browser : String)
    (st : RunSt) : RunSt :=
  let st1 := markOpened f.fid st
  if env.connectOk f.fid then
    parse_firefox_downloads_from_places env f.fid browser
      (parse_firefox_bookmarks_from_db env f.fid browser
        (parse_firefox_history_from_db env f.fid browser st1))
  else st1

/-- The shared body of `process_firefox_history`, `process_firefox_bookmarks`
and `process_firefox_downloads` (lines 59-115): all three search
`places.sqlite` under `Firefox` and call `parse_firefox_places_database`
on every qualifying file. -/
def process_firefox_places_step (env : Env) (st : RunSt) : RunSt :=
  match env.findFilesR "places.sqlite" "Firefox" with
  | .error _ => st
  | .ok files =>
      fileLoop env.sig
        (fun f s => if firefoxPathMatch f
          then parse_firefox_places_database env f "Firefox" s else s)
        files st

/-- `process_firefox_cookies` / `process_firefox_form_history`
(lines 117-157): the loop polls but only logs; no file is opened. -/
def process_firefox_logged_step (env : Env) (pattern : String) (st : RunSt) : RunSt :=
  match env.findFilesR pattern "Firefox" with
  | .error _ => st
  | .ok files => fileLoop env.sig (fun _ s => s) files st

/-- `process_all_firefox_browsers` (lines 24-57): five sub-steps with a
poll between consecutive ones. -/
def process_all_firefox_browsers (env : Env) (st : RunSt) : RunSt :=
  let st1 := process_firefox_places_step env st
  let p1 := poll env.sig st1
  if p1.1 then p1.2 else
  let st2 := process_firefox_places_step env p1.2
  let p2 := poll env.sig st2
  if p2.1 then p2.2 else
  let st3 := process_firefox_places_step env p2.2
  let p3 := poll env.sig st3
  if p3.1 then p3.2 else
  let st4 := process_firefox_logged_step env "cookies.sqlite" p3.2
  let p4 := poll env.sig st4
  if p4.1 then p4.2 else
  process_firefox_logged_step env "formhistory.sqlite" p4.2

/-- `parse_ie_index_file` (ie_processor.py, lines 170-204) with the
scanner output abstracted by the `scanUrls` oracle. -/
def parse_ie_index_file (env : Env) (f : CandFile) (browser : String)
    (st : RunSt) : RunSt :=
  urlLoop env.sig f.fid browser (env.scanUrls f.fid) (markOpened f.fid st)

/-- `parse_ie_bookmark_file` (lines 206-234): emits one record with
timestamp 0 when a `URL=` line is found. -/
def parse_ie_bookmark_file (env : Env) (f : CandFile) (browser : String)
    (st : RunSt) : RunSt :=
  let st1 := markOpened f.fid st
  match env.bookmarkUrl f.fid with
  | some u => emitRec ⟨f.fid, u, 0, browser⟩ st1
  | none => st1

/-- `parse_ie_webcache_database` (lines 336-367). -/
def parse_ie_webcache_database (env : Env) (f : CandFile) (browser : String)
    (st : RunSt) : RunSt :=
  urlLoop env.sig f.fid browser (env.scanUrls f.fid) (markOpened f.fid st)

def process_ie_history (env : Env) (st : RunSt) : RunSt :=
  match env.findFilesR "index.dat" "" with
  | .error _ => st
  | .ok files =>
      fileLoop env.sig (fun f s => parse_ie_index_file env f "Internet Explorer" s)
        files st

def process_ie_bookmarks (env : Env) (st : RunSt) : RunSt :=
  match env.findFilesR "%.url" "Favorites" with
  | .error _ => st
  | .ok files =>
      fileLoop env.sig (fun f s => parse_ie_bookmark_file env f "Internet Explorer" s)
        files st

/-- `process_ie_cookies` (lines 96-111): `parse_ie_cookie_file` only logs. -/
def process_ie_cookies (env : Env) (st : RunSt) : RunSt :=
  match env.findFilesR "%.txt" "Cookies" with
  | .error _ => st
  | .ok files => fileLoop env.sig (fun _ s => s) files st

/-- The IE/Edge parent-path indicator test (ie_processor.py, line 159). -/
def iePathAny (f : CandFile) : Bool :=
  ["internet explorer", "iexplore", "temporary internet files", "inetcache",
   "webcache", "edge", "microsoft"].any fun ind =>
    containsSub (f.parentPath.data.map Char.toLower) ind.data

/-- The candidate-list assembly of `process_ie_webcache` (lines 115-140):
the V01 list (a failure here aborts the whole sub-step), the V24 list and
the generic `WebCache*.dat` list (failures there are swallowed by inner
`try/except pass`), with duplicate filtering for the generic list. -/
def ieWebcacheCandidates (env : Env) : Except Unit (List CandFile) :=
  match env.findFilesR "WebCacheV01.dat" "" with
  | .error e => .error e
  | .ok l1 =>
      let l2 := match env.findFilesR "WebCacheV24.dat" "" with
        | .ok l => l
        | .error _ => []
      let l3 := match env.findFilesR "WebCache*.dat" "" with
        | .ok l => l
        | .error _ => []
      .ok (l1 ++ l2 ++ l3.filter (fun f => !(l1 ++ l2).contains f))

/-- `process_ie_webcache` (lines 113-168): a non-matching parent path is
still parsed, with the `Internet Explorer/Edge` label. -/
def process_ie_webcache (env : Env) (st : RunSt) : RunSt :=
  match ieWebcacheCandidates env with
  | .error _ => st
  | .ok files =>
      if files.isEmpty then st
      else
        fileLoop env.sig
          (fun f s => if iePathAny f
            then parse_ie_webcache_database env f "Internet Explorer" s
            else parse_ie_webcache_database env f "Internet Explorer/Edge" s)
          files st

/-- `process_internet_explorer` (lines 24-59). -/
def process_internet_explorer (env : Env) (st : RunSt) : RunSt :=
  let st1 := process_ie_history env st
  let p1 := poll env.sig st1
  if p1.1 then p1.2 else
  let st2 := process_ie_bookmarks env p1.2
  let p2 := poll env.sig st2
  if p2.1 then p2.2 else
  let st3 := process_ie_cookies env p2.2
  let p3 := poll env.sig st3
  if p3.1 then p3.2 else
  process_ie_webcache env p3.2

/-- `parse_safari_history_database` (safari_edge_processor.py, lines
95-137). -/
def parse_safari_history_database (env : Env) (f : CandFile) (browser : String)
    (st : RunSt) : RunSt :=
  let st1 := markOpened f.fid st
  match env.dbRows f.fid "SAFARI_HISTORY" with
  | .error _ => st1
  | .ok rows => rowLoop env.sig f.fid browser safariToUnix rows st1

/-- `process_safari_browsers` / `process_safari_history` (lines 27-58):
no parent-path filter. -/
def process_safari_browsers (env : Env) (st : RunSt) : RunSt :=
  match env.findFilesR "History.db" "Safari" with
  | .error _ => st
  | .ok files =>
      fileLoop env.sig (fun f s => parse_safari_history_database env f "Safari" s)
        files st

/-- `parse_edge_webcache_database` (lines 175-206): the scanner output is
handed to the gate with timestamp 0 (line 233). -/
def parse_edge_webcache_database (env : Env) (f : CandFile) (browser : String)
    (st : RunSt) : RunSt :=
  urlLoop env.sig f.fid browser ((env.scanUrls f.fid).map fun p => (p.1, 0))
    (markOpened f.fid st)

/-- `process_edge_legacy` (lines 60-93): both branches of the indicator
test parse the file with the `Edge Legacy` label. -/
def process_edge_legacy (env : Env) (st : RunSt) : RunSt :=
  match env.findFilesR "WebCacheV01.dat" "" with
  | .error _ => st
  | .ok files =>
      fileLoop env.sig (fun f s => parse_edge_webcache_database env f "Edge Legacy" s)
        files st

/-- `UrlPhishingIngestModule.process` (phishing_detector_main.py, lines
212-277): the five family calls with a poll after each. -/
def coordinatorProcess (env : Env) (st : RunSt) : RunSt :=
  let st1 := process_all_chromium_browsers env st
  let p1 := poll env.sig st1
  if p1.1 then p1.2 else
  let st2 := process_all_firefox_browsers env p1.2
  let p2 := poll env.sig st2
  if p2.1 then p2.2 else
  let st3 := process_internet_explorer env p2.2
  let p3 := poll env.sig st3
  if p3.1 then p3.2 else
  let st4 := process_safari_browsers env p3.2
  let p4 := poll env.sig st4
  if p4.1 then p4.2 else
  let st5 := process_edge_legacy env p4.2
  (poll env.sig st5).2

/-- The Chromium bookmark tree (`parse_chromium_bookmarks_file` walks
`roots`; `extract_bookmarks_from_folder`, chromium_processor.py lines
261-293, walks a folder's children, polling before each child). -/
inductive BmNode where
  | urlNode (url : String) (dateAdded : Option Int)
  | folderNode (children : List BmNode)
  | otherNode
deriving Repr

/-- `extract_bookmarks_from_folder` over a children list. -/
def bmWalk (env : Env) (fid : Nat) (browser : String) :
    List BmNode → RunSt → RunSt
  | [], st => st
  | n :: rest, st =>
      let p := poll env.sig st
      if p.1 then p.2
      else
        match n with
        | .urlNode url date =>
            bmWalk env fid browser rest
              (emitRec ⟨fid, url,
                (match date with
                 | some d => chromiumToUnix d
                 | none => 0), browser⟩ p.2)
        | .folderNode children =>
            bmWalk env fid browser rest (bmWalk env fid browser children p.2)
        | .otherNode => bmWalk env fid browser rest p.2

/-! Run-model lemmas: behaviour without cancellation, and freezing once
the cancellation signal reads true. -/

/-- The cancellation signal never fires. -/
def NoCancel (sig : Nat → Bool) : Prop := ∀ n, sig n = false

/-- The cancellation signal is monotone: once true it stays true. -/
def SigMono (sig : Nat → Bool) : Prop :=
  ∀ m n, m ≤ n → sig m = true → sig n = true

theorem flatMap_singleton_eq_map {α β} (h : α → β) (l : List α) :
    (l.flatMap fun a => [h a]) = l.map h := by
  induction l with
  | nil => rfl
  | cons a l ih => simp [ih]

theorem flatMap_if_filter {α β} (p q : α → Bool) (g : α → List β) (l : List α) :
    ((l.filter p).flatMap fun a => if q a then g a else [])
      = (l.filter fun a => p a && q a).flatMap g := by
  induction l with
  | nil => rfl
  | cons a l ih =>
      by_cases hp : p a
      · by_cases hq : q a
        · simp [hp, hq, ih]
        · simp [hp, hq, ih]
      · simp [hp, ih]

theorem rowLoop_noc {sig : Nat → Bool} (h : NoCancel sig)
    (fid : Nat) (b : String) (conv : Int → Int) :
    ∀ (rows : List Row) (st : RunSt),
      (rowLoop sig fid b conv rows st).opened = st.opened ∧
      (rowLoop sig fid b conv rows st).gateIn
        = st.gateIn ++ rows.map fun r => ⟨fid, r.url, conv r.raw, b⟩ := by
  intro rows
  induction rows with
  | nil => intro st; simp [rowLoop]
  | cons r rest ih =>
      intro st
      have hr := ih (emitRec ⟨fid, r.url, conv r.raw, b⟩
        { st with polls := st.polls + 1 })
      simp only [rowLoop, poll, h st.polls, Bool.false_eq_true, if_false]
      refine ⟨hr.1, ?_⟩
      rw [hr.2]
      simp [emitRec]

theorem urlLoop_noc {sig : Nat → Bool} (h : NoCancel sig)
    (fid : Nat) (b : String) :
    ∀ (uts : List (String × Int)) (st : RunSt),
      (urlLoop sig fid b uts st).opened = st.opened ∧
      (urlLoop sig fid b uts st).gateIn
        = st.gateIn ++ uts.map fun ut => ⟨fid, ut.1, ut.2, b⟩ := by
  intro uts
  induction uts with
  | nil => intro st; simp [urlLoop]
  | cons ut rest ih =>
      intro st
      have hr := ih (emitRec ⟨fid, ut.1, ut.2, b⟩ { st with polls := st.polls + 1 })
      simp only [urlLoop, poll, h st.polls, Bool.false_eq_true, if_false]
      refine ⟨hr.1, ?_⟩
      rw [hr.2]
      simp [emitRec]

theorem fileLoop_noc {sig : Nat → Bool} (h : NoCancel sig)
    {parse : CandFile → RunSt → RunSt}
    {gO : CandFile → List Nat} {gG : CandFile → List GateRec}
    (hp : ∀ f s, (parse f s).opened = s.opened ++ gO f ∧
        (parse f s).gateIn = s.gateIn ++ gG f) :
    ∀ (files : List CandFile) (st : RunSt),
      (fileLoop sig parse files st).opened
        = st.opened ++ (files.filter fun f => !skipFile f).flatMap gO ∧
      (fileLoop sig parse files st).gateIn
        = st.gateIn ++ (files.filter fun f => !skipFile f).flatMap gG := by
  intro files
  induction files with
  | nil => intro st; simp [fileLoop]
  | cons f rest ih =>
      intro st
      by_cases hs : skipFile f
      · simp only [fileLoop, hs, if_true, List.filter_cons, Bool.not_eq_true']
        rw [if_neg (by simp [hs])]
        exact ih st
      · have hskip : skipFile f = false := by simpa using hs
        simp only [fileLoop, hskip, Bool.false_eq_true, if_false, poll,
          h st.polls]
        have hr := ih (parse f { st with polls := st.polls + 1 })
        have hpf := hp f { st with polls := st.polls + 1 }
        constructor
        · rw [hr.1, hpf.1]
          simp [List.filter_cons, hskip]
        · rw [hr.2, hpf.2]
          simp [List.filter_cons, hskip]

/-- Rows yielded by a query; an exception (`.error`) yields none. -/
def rowsOf (env : Env) (fid : Nat) (q : String) : List Row :=
  match env.dbRows fid q with
  | .ok l => l
  | .error _ => []

/-- Candidate files of a search; an exception yields none. -/
def filesOf (env : Env) (pattern hint : String) : List CandFile :=
  match env.findFilesR pattern hint with
  | .ok l => l
  | .error _ => []

def chromFeed (env : Env) (fid : Nat) (b : String) : List GateRec :=
  (rowsOf env fid "CHROMIUM_HISTORY").map fun r =>
    ⟨fid, r.url, chromiumToUnix r.raw, b⟩

/-- Records one `parse_firefox_places_database` invocation hands to the
gate: history, then bookmarks, then downloads (when the table exists). -/
def ffPlacesFeed (env : Env) (fid : Nat) : List GateRec :=
  if env.connectOk fid then
    ((rowsOf env fid "FIREFOX_HISTORY").map fun r =>
        ⟨fid, r.url, firefoxQueryToUnix r.raw, "Firefox"⟩)
    ++ (((rowsOf env fid "FIREFOX_BOOKMARKS").map fun r =>
        ⟨fid, r.url, firefoxQueryToUnix r.raw, "Firefox"⟩)
    ++ (if env.tableExists fid then
          (rowsOf env fid "FIREFOX_DOWNLOADS_PRE24").map fun r =>
            ⟨fid, r.url, firefoxDownloadToUnix r.raw, "Firefox"⟩
        else []))
  else []

def scanFeed (env : Env) (fid : Nat) (b : String) : List GateRec :=
  (env.scanUrls fid).map fun p => ⟨fid, p.1, p.2, b⟩

def edgeFeed (env : Env) (fid : Nat) : List GateRec :=
  (env.scanUrls fid).map fun p => ⟨fid, p.1, 0, "Edge Legacy"⟩

def ieBmFeed (env : Env) (fid : Nat) : List GateRec :=
  match env.bookmarkUrl fid with
  | some u => [⟨fid, u, 0, "Internet Explorer"⟩]
  | none => []

def safariFeed (env : Env) (fid : Nat) : List GateRec :=
  (rowsOf env fid "SAFARI_HISTORY").map fun r =>
    ⟨fid, r.url, safariToUnix r.raw, "Safari"⟩

theorem parse_chromium_noc {env : Env} (h : NoCancel env.sig)
    (f : CandFile) (b : String) (st : RunSt) :
    (parse_chromium_history_database env f b st).opened = st.opened ++ [f.fid] ∧
    (parse_chromium_history_database env f b st).gateIn
      = st.gateIn ++ chromFeed env f.fid b := by
  unfold parse_chromium_history_database chromFeed rowsOf
  cases henv : env.dbRows f.fid "CHROMIUM_HISTORY" with
  | error e => simp [markOpened]
  | ok rows =>
      have hr := rowLoop_noc h f.fid b chromiumToUnix rows (markOpened f.fid st)
      simpa [markOpened] using hr

theorem parse_ffhist_noc {env : Env} (h : NoCancel env.sig)
    (fid : Nat) (b : String) (st : RunSt) :
    (parse_firefox_history_from_db env fid b st).opened = st.opened ∧
    (parse_firefox_history_from_db env fid b st).gateIn
      = st.gateIn ++ (rowsOf env fid "FIREFOX_HISTORY").map fun r =>
          ⟨fid, r.url, firefoxQueryToUnix r.raw, b⟩ := by
  unfold parse_firefox_history_from_db rowsOf
  cases henv : env.dbRows fid "FIREFOX_HISTORY" with
  | error e => simp
  | ok rows => simpa using rowLoop_noc h fid b firefoxQueryToUnix rows st

theorem parse_ffbm_noc {env : Env} (h : NoCancel env.sig)
    (fid : Nat) (b : String) (st : RunSt) :
    (parse_firefox_bookmarks_from_db env fid b st).opened = st.opened ∧
    (parse_firefox_bookmarks_from_db env fid b st).gateIn
      = st.gateIn ++ (rowsOf env fid "FIREFOX_BOOKMARKS").map fun r =>
          ⟨fid, r.url, firefoxQueryToUnix r.raw, b⟩ := by
  unfold parse_firefox_bookmarks_from_db rowsOf
  cases henv : env.dbRows fid "FIREFOX_BOOKMARKS" with
  | error e => simp
  | ok rows => simpa using rowLoop_noc h fid b firefoxQueryToUnix rows st

theorem parse_ffdl_noc {env : Env} (h : NoCancel env.sig)
    (fid : Nat) (b : String) (st : RunSt) :
    (parse_firefox_downloads_from_places env fid b st).opened = st.opened ∧
    (parse_firefox_downloads_from_places env fid b st).gateIn
      = st.gateIn ++ (if env.tableExists fid then
          (rowsOf env fid "FIREFOX_DOWNLOADS_PRE24").map fun r =>
            ⟨fid, r.url, firefoxDownloadToUnix r.raw, b⟩
        else []) := by
  unfold parse_firefox_downloads_from_places rowsOf
  by_cases ht : env.tableExists fid
  · rw [if_pos ht, if_pos ht]
    cases henv : env.dbRows fid "FIREFOX_DOWNLOADS_PRE24" with
    | error e => simp
    | ok rows => simpa using rowLoop_noc h fid b firefoxDownloadToUnix rows st
  · rw [if_neg ht, if_neg ht]
    simp

theorem parse_places_noc {env : Env} (h : NoCancel env.sig)
    (f : CandFile) (st : RunSt) :
    (parse_firefox_places_database env f "Firefox" st).opened
      = st.opened ++ [f.fid] ∧
    (parse_firefox_places_database env f "Firefox" st).gateIn
      = st.gateIn ++ ffPlacesFeed env f.fid := by
  unfold parse_firefox_places_database ffPlacesFeed
  by_cases hc : env.connectOk f.fid
  · rw [if_pos hc, if_pos hc]
    have h1 := parse_ffhist_noc h f.fid "Firefox" (markOpened f.fid st)
    have h2 := parse_ffbm_noc h f.fid "Firefox"
      (parse_firefox_history_from_db env f.fid "Firefox" (markOpened f.fid st))
    have h3 := parse_ffdl_noc h f.fid "Firefox"
      (parse_firefox_bookmarks_from_db env f.fid "Firefox"
        (parse_firefox_history_from_db env f.fid "Firefox" (markOpened f.fid st)))
    refine ⟨?_, ?_⟩
    · rw [h3.1, h2.1, h1.1]
      simp [markOpened]
    · rw [h3.2, h2.2, h1.2]
      simp [markOpened, List.append_assoc]
  · rw [if_neg hc, if_neg hc]
    simp [markOpened]

theorem parse_ie_index_noc {env : Env} (h : NoCancel env.sig)
    (f : CandFile) (b : String) (st : RunSt) :
    (parse_ie_index_file env f b st).opened = st.opened ++ [f.fid] ∧
    (parse_ie_index_file env f b st).gateIn = st.gateIn ++ scanFeed env f.fid b := by
  unfold parse_ie_index_file scanFeed
  simpa [markOpened] using urlLoop_noc h f.fid b (env.scanUrls f.fid) (markOpened f.fid st)

theorem parse_ie_webcache_noc {env : Env} (h : NoCancel env.sig)
    (f : CandFile) (b : String) (st : RunSt) :
    (parse_ie_webcache_database env f b st).opened = st.opened ++ [f.fid] ∧
    (parse_ie_webcache_database env f b st).gateIn
      = st.gateIn ++ scanFeed env f.fid b := by
  unfold parse_ie_webcache_database scanFeed
  simpa [markOpened] using urlLoop_noc h f.fid b (env.scanUrls f.fid) (markOpened f.fid st)

theorem parse_ie_bookmark_noc (env : Env)
    (f : CandFile) (st : RunSt) :
    (parse_ie_bookmark_file env f "Internet Explorer" st).opened
      = st.opened ++ [f.fid] ∧
    (parse_ie_bookmark_file env f "Internet Explorer" st).gateIn
      = st.gateIn ++ ieBmFeed env f.fid := by
  unfold parse_ie_bookmark_file ieBmFeed
  cases henv : env.bookmarkUrl f.fid with
  | none => simp [markOpened]
  | some u => simp [markOpened, emitRec]

theorem parse_safari_noc {env : Env} (h : NoCancel env.sig)
    (f : CandFile) (st : RunSt) :
    (parse_safari_history_database env f "Safari" st).opened
      = st.opened ++ [f.fid] ∧
    (parse_safari_history_database env f "Safari" st).gateIn
      = st.gateIn ++ safariFeed env f.fid := by
  unfold parse_safari_history_database safariFeed rowsOf
  cases henv : env.dbRows f.fid "SAFARI_HISTORY" with
  | error e => simp [markOpened]
  | ok rows =>
      simpa [markOpened] using
        rowLoop_noc h f.fid "Safari" safariToUnix rows (markOpened f.fid st)

theorem parse_edge_noc {env : Env} (h : NoCancel env.sig)
    (f : CandFile) (st : RunSt) :
    (parse_edge_webcache_database env f "Edge Legacy" st).opened
      = st.opened ++ [f.fid] ∧
    (parse_edge_webcache_database env f "Edge Legacy" st).gateIn
      = st.gateIn ++ edgeFeed env f.fid := by
  unfold parse_edge_webcache_database edgeFeed
  have hu := urlLoop_noc h f.fid "Edge Legacy"
    ((env.scanUrls f.fid).map fun p => (p.1, 0)) (markOpened f.fid st)
  refine ⟨by simpa [markOpened] using hu.1, ?_⟩
  rw [hu.2]
  simp [markOpened]

/-! Per-family characterizations without cancellation.  Note that only the
`findFilesR` oracle and the file filters enter the opened-file lists:
outcomes of the database/connection/scanner oracles (the exception
sources) cannot change which files are processed. -/

def chromiumOneList (env : Env) (name path : String) : List Nat :=
  ((filesOf env "History" path).filter fun f =>
      !skipFile f && chromiumPathMatch name f).map (·.fid)

def chromiumOneGate (env : Env) (name path : String) : List GateRec :=
  ((filesOf env "History" path).filter fun f =>
      !skipFile f && chromiumPathMatch name f).flatMap fun f =>
    chromFeed env f.fid name

theorem process_chromium_history_noc {env : Env} (h : NoCancel env.sig)
    (name path : String) (st : RunSt) :
    (process_chromium_history env name path st).opened
      = st.opened ++ chromiumOneList env name path ∧
    (process_chromium_history env name path st).gateIn
      = st.gateIn ++ chromiumOneGate env name path := by
  unfold process_chromium_history chromiumOneList chromiumOneGate filesOf
  cases henv : env.findFilesR "History" path with
  | error e => simp
  | ok files =>
      have hp : ∀ (f : CandFile) (s : RunSt),
          ((fun f s => if chromiumPathMatch name f
            then parse_chromium_history_database env f name s else s) f s).opened
            = s.opened ++ (if chromiumPathMatch name f then [f.fid] else []) ∧
          ((fun f s => if chromiumPathMatch name f
            then parse_chromium_history_database env f name s else s) f s).gateIn
            = s.gateIn ++ (if chromiumPathMatch name f
                then chromFeed env f.fid name else []) := by
        intro f s
        by_cases hm : chromiumPathMatch name f
        · simpa [hm] using parse_chromium_noc h f name s
        · simp [hm]
      have hfl := fileLoop_noc h hp files st
      rw [hfl.1, hfl.2, flatMap_if_filter, flatMap_if_filter,
        flatMap_singleton_eq_map]
      exact ⟨rfl, rfl⟩

theorem browsersLoop_noc {env : Env} (h : NoCancel env.sig) :
    ∀ (bs : List (String × String)) (st : RunSt),
      (browsersLoop env bs st).opened
        = st.opened ++ bs.flatMap (fun bp => chromiumOneList env bp.1 bp.2) ∧
      (browsersLoop env bs st).gateIn
        = st.gateIn ++ bs.flatMap (fun bp => chromiumOneGate env bp.1 bp.2) := by
  intro bs
  induction bs with
  | nil => intro st; simp [browsersLoop]
  | cons bp rest ih =>
      intro st
      have hsig : ∀ n, env.sig n = false := h
      simp only [browsersLoop, poll, hsig, Bool.false_eq_true, if_false]
      have hp := process_chromium_history_noc h bp.1 bp.2
        { st with polls := st.polls + 1 }
      have hr := ih (process_chromium_history env bp.1 bp.2
        { st with polls := st.polls + 1 })
      refine ⟨?_, ?_⟩
      · rw [hr.1, hp.1]; simp
      · rw [hr.2, hp.2]; simp

def chromiumOpenedList (env : Env) : List Nat :=
  CHROMIUM_BROWSERS.flatMap fun bp => chromiumOneList env bp.1 bp.2

def chromiumGateList (env : Env) : List GateRec :=
  CHROMIUM_BROWSERS.flatMap fun bp => chromiumOneGate env bp.1 bp.2

theorem process_all_chromium_noc {env : Env} (h : NoCancel env.sig) (st : RunSt) :
    (process_all_chromium_browsers env st).opened
      = st.opened ++ chromiumOpenedList env ∧
    (process_all_chromium_browsers env st).gateIn
      = st.gateIn ++ chromiumGateList env :=
  browsersLoop_noc h CHROMIUM_BROWSERS st

def firefoxFiles (env : Env) : List CandFile :=
  (filesOf env "places.sqlite" "Firefox").filter fun f =>
    !skipFile f && firefoxPathMatch f

def firefoxOpenedList (env : Env) : List Nat := (firefoxFiles env).map (·.fid)

def firefoxGateList (env : Env) : List GateRec :=
  (firefoxFiles env).flatMap fun f => ffPlacesFeed env f.fid

theorem places_step_noc {env : Env} (h : NoCancel env.sig) (st : RunSt) :
    (process_firefox_places_step env st).opened
      = st.opened ++ firefoxOpenedList env ∧
    (process_firefox_places_step env st).gateIn
      = st.gateIn ++ firefoxGateList env := by
  unfold process_firefox_places_step firefoxOpenedList firefoxGateList
    firefoxFiles filesOf
  cases henv : env.findFilesR "places.sqlite" "Firefox" with
  | error e => simp
  | ok files =>
      have hp : ∀ (f : CandFile) (s : RunSt),
          ((fun f s => if firefoxPathMatch f
            then parse_firefox_places_database env f "Firefox" s else s) f s).opened
            = s.opened ++ (if firefoxPathMatch f then [f.fid] else []) ∧
          ((fun f s => if firefoxPathMatch f
            then parse_firefox_places_database env f "Firefox" s else s) f s).gateIn
            = s.gateIn ++ (if firefoxPathMatch f
                then ffPlacesFeed env f.fid else []) := by
        intro f s
        by_cases hm : firefoxPathMatch f
        · simpa [hm] using parse_places_noc h f s
        · simp [hm]
      have hfl := fileLoop_noc h hp files st
      rw [hfl.1, hfl.2, flatMap_if_filter, flatMap_if_filter,
        flatMap_singleton_eq_map]
      exact ⟨rfl, rfl⟩

theorem logged_step_noc {env : Env} (h : NoCancel env.sig)
    (pattern : String) (st : RunSt) :
    (process_firefox_logged_step env pattern st).opened = st.opened ∧
    (process_firefox_logged_step env pattern st).gateIn = st.gateIn := by
  unfold process_firefox_logged_step
  cases henv : env.findFilesR pattern "Firefox" with
  | error e => exact ⟨rfl, rfl⟩
  | ok files =>
      have hp : ∀ (f : CandFile) (s : RunSt),
          ((fun _ (s : RunSt) => s) f s).opened = s.opened ++ [] ∧
          ((fun _ (s : RunSt) => s) f s).gateIn = s.gateIn ++ [] := by
        intro f s; simp
      have hfl := fileLoop_noc h hp files st
      constructor
      · rw [hfl.1]; simp
      · rw [hfl.2]; simp

theorem process_all_firefox_noc {env : Env} (h : NoCancel env.sig) (st : RunSt) :
    (process_all_firefox_browsers env st).opened
      = st.opened ++ (firefoxOpenedList env ++ firefoxOpenedList env
          ++ firefoxOpenedList env) ∧
    (process_all_firefox_browsers env st).gateIn
      = st.gateIn ++ (firefoxGateList env ++ firefoxGateList env
          ++ firefoxGateList env) := by
  unfold process_all_firefox_browsers
  have hsig : ∀ n, env.sig n = false := h
  simp only [poll, hsig, Bool.false_eq_true, if_false]
  constructor
  · rw [(logged_step_noc h "formhistory.sqlite" _).1]
    dsimp only
    rw [(logged_step_noc h "cookies.sqlite" _).1]
    dsimp only
    rw [(places_step_noc h _).1]
    dsimp only
    rw [(places_step_noc h _).1]
    dsimp only
    rw [(places_step_noc h _).1]
    simp [List.append_assoc]
  · rw [(logged_step_noc h "formhistory.sqlite" _).2]
    dsimp only
    rw [(logged_step_noc h "cookies.sqlite" _).2]
    dsimp only
    rw [(places_step_noc h _).2]
    dsimp only
    rw [(places_step_noc h _).2]
    dsimp only
    rw [(places_step_noc h _).2]
    simp [List.append_assoc]

def ieIndexFiles (env : Env) : List CandFile :=
  (filesOf env "index.dat" "").filter fun f => !skipFile f

def ieIndexOpenedList (env : Env) : List Nat := (ieIndexFiles env).map (·.fid)

def ieIndexGateList (env : Env) : List GateRec :=
  (ieIndexFiles env).flatMap fun f => scanFeed env f.fid "Internet Explorer"

theorem process_ie_history_noc {env : Env} (h : NoCancel env.sig) (st : RunSt) :
    (process_ie_history env st).opened = st.opened ++ ieIndexOpenedList env ∧
    (process_ie_history env st).gateIn = st.gateIn ++ ieIndexGateList env := by
  unfold process_ie_history ieIndexOpenedList ieIndexGateList ieIndexFiles filesOf
  cases henv : env.findFilesR "index.dat" "" with
  | error e => simp
  | ok files =>
      have hfl := fileLoop_noc h
        (fun f s => parse_ie_index_noc h f "Internet Explorer" s) files st
      rw [hfl.1, hfl.2, flatMap_singleton_eq_map]
      exact ⟨rfl, rfl⟩

def ieBookmarkFiles (env : Env) : List CandFile :=
  (filesOf env "%.url" "Favorites").filter fun f => !skipFile f

def ieBookmarkOpenedList (env : Env) : List Nat := (ieBookmarkFiles env).map (·.fid)

def ieBookmarkGateList (env : Env) : List GateRec :=
  (ieBookmarkFiles env).flatMap fun f => ieBmFeed env f.fid

theorem process_ie_bookmarks_noc {env : Env} (h : NoCancel env.sig) (st : RunSt) :
    (process_ie_bookmarks env st).opened = st.opened ++ ieBookmarkOpenedList env ∧
    (process_ie_bookmarks env st).gateIn = st.gateIn ++ ieBookmarkGateList env := by
  unfold process_ie_bookmarks ieBookmarkOpenedList ieBookmarkGateList
    ieBookmarkFiles filesOf
  cases henv : env.findFilesR "%.url" "Favorites" with
  | error e => simp
  | ok files =>
      have hfl := fileLoop_noc h
        (fun f s => parse_ie_bookmark_noc env f s) files st
      rw [hfl.1, hfl.2, flatMap_singleton_eq_map]
      exact ⟨rfl, rfl⟩

theorem process_ie_cookies_noc {env : Env} (h : NoCancel env.sig) (st : RunSt) :
    (process_ie_cookies env st).opened = st.opened ∧
    (process_ie_cookies env st).gateIn = st.gateIn := by
  unfold process_ie_cookies
  cases henv : env.findFilesR "%.txt" "Cookies" with
  | error e => exact ⟨rfl, rfl⟩
  | ok files =>
      have hp : ∀ (f : CandFile) (s : RunSt),
          ((fun _ (s : RunSt) => s) f s).opened = s.opened ++ [] ∧
          ((fun _ (s : RunSt) => s) f s).gateIn = s.gateIn ++ [] := by
        intro f s; simp
      have hfl := fileLoop_noc h hp files st
      constructor
      · rw [hfl.1]; simp
      · rw [hfl.2]; simp

def ieWebcacheMergedFiles (env : Env) : List CandFile :=
  match ieWebcacheCandidates env with
  | .error _ => []
  | .ok l => l

def ieWebcacheOpenedList (env : Env) : List Nat :=
  ((ieWebcacheMergedFiles env).filter fun f => !skipFile f).map (·.fid)

def ieWebcacheGateList (env : Env) : List GateRec :=
  ((ieWebcacheMergedFiles env).filter fun f => !skipFile f).flatMap fun f =>
    if iePathAny f then scanFeed env f.fid "Internet Explorer"
    else scanFeed env f.fid "Internet Explorer/Edge"

theorem process_ie_webcache_noc {env : Env} (h : NoCancel env.sig) (st : RunSt) :
    (process_ie_webcache env st).opened = st.opened ++ ieWebcacheOpenedList env ∧
    (process_ie_webcache env st).gateIn = st.gateIn ++ ieWebcacheGateList env := by
  unfold process_ie_webcache ieWebcacheOpenedList ieWebcacheGateList
    ieWebcacheMergedFiles
  cases henv : ieWebcacheCandidates env with
  | error e => simp
  | ok files =>
      dsimp only
      by_cases he : files.isEmpty
      · have : files = [] := by simpa using he
        subst this
        simp
      · rw [if_neg he]
        have hp : ∀ (f : CandFile) (s : RunSt),
            ((fun f s => if iePathAny f
              then parse_ie_webcache_database env f "Internet Explorer" s
              else parse_ie_webcache_database env f "Internet Explorer/Edge" s) f s).opened
              = s.opened ++ [f.fid] ∧
            ((fun f s => if iePathAny f
              then parse_ie_webcache_database env f "Internet Explorer" s
              else parse_ie_webcache_database env f "Internet Explorer/Edge" s) f s).gateIn
              = s.gateIn ++ (if iePathAny f then scanFeed env f.fid "Internet Explorer"
                  else scanFeed env f.fid "Internet Explorer/Edge") := by
          intro f s
          by_cases hm : iePathAny f
          · simpa [hm] using parse_ie_webcache_noc h f "Internet Explorer" s
          · simpa [hm] using parse_ie_webcache_noc h f "Internet Explorer/Edge" s
        have hfl := fileLoop_noc h hp files st
        rw [hfl.1, hfl.2, flatMap_singleton_eq_map]
        exact ⟨rfl, rfl⟩

theorem process_internet_explorer_noc {env : Env} (h : NoCancel env.sig)
    (st : RunSt) :
    (process_internet_explorer env st).opened
      = st.opened ++ (ieIndexOpenedList env ++ ieBookmarkOpenedList env
          ++ ieWebcacheOpenedList env) ∧
    (process_internet_explorer env st).gateIn
      = st.gateIn ++ (ieIndexGateList env ++ ieBookmarkGateList env
          ++ ieWebcacheGateList env) := by
  unfold process_internet_explorer
  have hsig : ∀ n, env.sig n = false := h
  simp only [poll, hsig, Bool.false_eq_true, if_false]
  constructor
  · rw [(process_ie_webcache_noc h _).1]
    dsimp only
    rw [(process_ie_cookies_noc h _).1]
    dsimp only
    rw [(process_ie_bookmarks_noc h _).1]
    dsimp only
    rw [(process_ie_history_noc h _).1]
    simp [List.append_assoc]
  · rw [(process_ie_webcache_noc h _).2]
    dsimp only
    rw [(process_ie_cookies_noc h _).2]
    dsimp only
    rw [(process_ie_bookmarks_noc h _).2]
    dsimp only
    rw [(process_ie_history_noc h _).2]
    simp [List.append_assoc]

def safariFiles (env : Env) : List CandFile :=
  (filesOf env "History.db" "Safari").filter fun f => !skipFile f

def safariOpenedList (env : Env) : List Nat := (safariFiles env).map (·.fid)

def safariGateList (env : Env) : List GateRec :=
  (safariFiles env).flatMap fun f => safariFeed env f.fid

theorem process_safari_noc {env : Env} (h : NoCancel env.sig) (st : RunSt) :
    (process_safari_browsers env st).opened = st.opened ++ safariOpenedList env ∧
    (process_safari_browsers env st).gateIn = st.gateIn ++ safariGateList env := by
  unfold process_safari_browsers safariOpenedList safariGateList safariFiles filesOf
  cases henv : env.findFilesR "History.db" "Safari" with
  | error e => simp
  | ok files =>
      have hfl := fileLoop_noc h
        (fun f s => parse_safari_noc h f s) files st
      rw [hfl.1, hfl.2, flatMap_singleton_eq_map]
      exact ⟨rfl, rfl⟩

def edgeFiles (env : Env) : List CandFile :=
  (filesOf env "WebCacheV01.dat" "").filter fun f => !skipFile f

def edgeOpenedList (env : Env) : List Nat := (edgeFiles env).map (·.fid)

def edgeGateList (env : Env) : List GateRec :=
  (edgeFiles env).flatMap fun f => edgeFeed env f.fid

theorem process_edge_noc {env : Env} (h : NoCancel env.sig) (st : RunSt) :
    (process_edge_legacy env st).opened = st.opened ++ edgeOpenedList env ∧
    (process_edge_legacy env st).gateIn = st.gateIn ++ edgeGateList env := by
  unfold process_edge_legacy edgeOpenedList edgeGateList edgeFiles filesOf
  cases henv : env.findFilesR "WebCacheV01.dat" "" with
  | error e => simp
  | ok files =>
      have hfl := fileLoop_noc h
        (fun f s => parse_edge_noc h f s) files st
      rw [hfl.1, hfl.2, flatMap_singleton_eq_map]
      exact ⟨rfl, rfl⟩

/-- All files opened in one full run, per family in coordinator order. -/
def runOpenedList (env : Env) : List Nat :=
  chromiumOpenedList env
    ++ (firefoxOpenedList env ++ firefoxOpenedList env ++ firefoxOpenedList env)
    ++ (ieIndexOpenedList env ++ ieBookmarkOpenedList env ++ ieWebcacheOpenedList env)
    ++ safariOpenedList env ++ edgeOpenedList env

theorem coordinator_noc {env : Env} (h : NoCancel env.sig) (st : RunSt) :
    (coordinatorProcess env st).opened = st.opened ++ runOpenedList env := by
  unfold coordinatorProcess runOpenedList
  have hsig : ∀ n, env.sig n = false := h
  simp only [poll, hsig, Bool.false_eq_true, if_false]
  rw [(process_edge_noc h _).1]
  dsimp only
  rw [(process_safari_noc h _).1]
  dsimp only
  rw [(process_internet_explorer_noc h _).1]
  dsimp only
  rw [(process_all_firefox_noc h _).1]
  dsimp only
  rw [(process_all_chromium_noc h _).1]
  simp [List.append_assoc]

/-! Freeze lemmas: once the (monotone) cancellation signal reads true,
nothing further is opened or emitted. -/

theorem chromium_frozen (env : Env) (st : RunSt) (h : env.sig st.polls = true) :
    process_all_chromium_browsers env st = { st with polls := st.polls + 1 } := by
  simp [process_all_chromium_browsers, CHROMIUM_BROWSERS, browsersLoop, poll, h]

/-- The 1000-file cancellation scenario of the claim: one Chromium browser
with 1000 valid candidate `History` files, and a signal that turns true at
the fourth file poll (after the browser poll and three file polls). -/
def scenarioFiles : List CandFile :=
  (List.range 1000).map fun i =>
    { fid := i, parentPath := "/Chrome/User Data/Default/", isFile := true, size := 1 }

def envScenario : Env :=
  { sig := fun n => decide (4 ≤ n)
    findFilesR := fun pattern hint =>
      if pattern = "History" && hint = "Chrome/User Data" then .ok scenarioFiles
      else .ok []
    connectOk := fun _ => true
    dbRows := fun _ _ => .ok []
    tableExists := fun _ => false
    scanUrls := fun _ => []
    bookmarkUrl := fun _ => none }

/-- Oracle with two Firefox `places.sqlite` candidates, the first of which
fails every query (a raised exception at the reader). -/
def envW : Env :=
  { sig := fun _ => false
    findFilesR := fun pattern hint =>
      if pattern = "places.sqlite" && hint = "Firefox" then
        .ok [{ fid := 5, parentPath := "/Mozilla/Firefox/Profiles/ab/",
               isFile := true, size := 1 },
             { fid := 6, parentPath := "/Mozilla/Firefox/Profiles/cd/",
               isFile := true, size := 1 }]
      else .ok []
    connectOk := fun _ => true
    dbRows := fun fid _ =>
      if fid = 5 then .error ()
      else .ok [{ url := "http://a.example/x", raw := 1500000000 }]
    tableExists := fun _ => false
    scanUrls := fun _ => []
    bookmarkUrl := fun _ => none }

/-- C6: with no cancellation, the set of files the run opens is exactly
the qualifying candidate lists of every family in coordinator order, a
formula over the file-search oracle and the pure name/path filters alone;
the open/query/parse oracles (the exception sources, absorbed at the
source's `try/except` sites) never enter it, so a failure at one file
leaves sibling files and sibling families processed — formally, any
environment differing only in those oracles opens the same files. -/
theorem claim_C6_error_containment :
    ∀ (env : Env) (st : RunSt), NoCancel env.sig →
      (coordinatorProcess env st).opened = st.opened ++ runOpenedList env ∧
      (∀ env2 : Env, env2.sig = env.sig → env2.findFilesR = env.findFilesR →
        (coordinatorProcess env2 st).opened = (coordinatorProcess env st).opened) := by
  intro env st h
  refine ⟨coordinator_noc h st, ?_⟩
  intro env2 hs hf
  have h2 : NoCancel env2.sig := by rw [hs]; exact h
  rw [coordinator_noc h2 st, coordinator_noc h st]
  have hrun : runOpenedList env2 = runOpenedList env := by
    simp [runOpenedList, chromiumOpenedList, chromiumOneList, firefoxOpenedList,
      firefoxFiles, ieIndexOpenedList, ieIndexFiles, ieBookmarkOpenedList,
      ieBookmarkFiles, ieWebcacheOpenedList, ieWebcacheMergedFiles,
      ieWebcacheCandidates, safariOpenedList, safariFiles, edgeOpenedList,
      edgeFiles, filesOf, hf]
  rw [hrun]

/-- Witness for `claim_C6_error_containment`: with `envW`, file 5 raises on
every query yet file 6 and both are still opened in all three Firefox
passes. -/
theorem claim_C6_error_containment_witness :
    (coordinatorProcess envW ⟨0, [], []⟩).opened = [5, 6, 5, 6, 5, 6] := by
  have h := (claim_C6_error_containment envW ⟨0, [], []⟩ (fun _ => rfl)).1
  rw [h]
  decide

/-- C9: in one `process_all_firefox_browsers` run without cancellation,
the history, bookmarks and downloads sub-steps each open every qualifying
`places.sqlite` file once (three openings per file), and each opening
hands the gate the full places feed — history rows, bookmark rows and
download rows — so every row is fed three times. -/
theorem claim_C9_firefox_triple :
    ∀ (env : Env) (st : RunSt), NoCancel env.sig →
      (process_all_firefox_browsers env st).opened
        = st.opened ++ (firefoxOpenedList env ++ firefoxOpenedList env
            ++ firefoxOpenedList env) ∧
      (process_all_firefox_browsers env st).gateIn
        = st.gateIn ++ (firefoxGateList env ++ firefoxGateList env
            ++ firefoxGateList env) :=
  fun _ st h => process_all_firefox_noc h st

/-- Witness for `claim_C9_firefox_triple`: the two rows of file 6 (one
history row, one bookmark row from the same source row) appear three times
each in the gate feed. -/
theorem claim_C9_firefox_triple_witness :
    (process_all_firefox_browsers envW ⟨0, [], []⟩).gateIn
      = [⟨6, "http://a.example/x", 1500000000, "Firefox"⟩,
         ⟨6, "http://a.example/x", 1500000000, "Firefox"⟩,
         ⟨6, "http://a.example/x", 1500000000, "Firefox"⟩,
         ⟨6, "http://a.example/x", 1500000000, "Firefox"⟩,
         ⟨6, "http://a.example/x", 1500000000, "Firefox"⟩,
         ⟨6, "http://a.example/x", 1500000000, "Firefox"⟩] := by
  have h := (claim_C9_firefox_triple envW ⟨0, [], []⟩ (fun _ => rfl)).2
  rw [h]
  decide

set_option maxRecDepth 8000 in
/-- C7: (i) with a monotone cancellation signal, once the signal reads
true the coordinator opens no further file and emits no further record in
any family; (ii) the row loops poll before each row and emit nothing once
the signal is true; (iii) the bookmark-tree walk polls at each node and
emits nothing once the signal is true; (iv) in the concrete scenario of
1000 candidate files with cancellation turning true after the third file,
exactly files 0, 1, 2 are opened — files 4 through 1000 never are. -/
theorem claim_C7_cancellation :
    (∀ (env : Env) (st : RunSt), SigMono env.sig → env.sig st.polls = true →
        (coordinatorProcess env st).opened = st.opened ∧
        (coordinatorProcess env st).gateIn = st.gateIn) ∧
    (∀ (sig : Nat → Bool) (fid : Nat) (b : String) (conv : Int → Int)
        (rows : List Row) (st : RunSt), sig st.polls = true →
        (rowLoop sig fid b conv rows st).gateIn = st.gateIn ∧
        (rowLoop sig fid b conv rows st).opened = st.opened) ∧
    (∀ (env : Env) (fid : Nat) (b : String) (nodes : List BmNode) (st : RunSt),
        env.sig st.polls = true →
        (bmWalk env fid b nodes st).gateIn = st.gateIn ∧
        (bmWalk env fid b nodes st).opened = st.opened) ∧
    (coordinatorProcess envScenario ⟨0, [], []⟩).opened = [0, 1, 2] := by
  refine ⟨?_, ?_, ?_, ?_⟩
  · intro env st hm h
    have hc := chromium_frozen env st h
    have h2 : env.sig (st.polls + 1) = true := hm _ _ (Nat.le_succ _) h
    constructor <;> simp [coordinatorProcess, hc, poll, h2]
  · intro sig fid b conv rows st h
    cases rows with
    | nil => exact ⟨rfl, rfl⟩
    | cons r rest => constructor <;> simp [rowLoop, poll, h]
  · intro env fid b nodes st h
    cases nodes with
    | nil => constructor <;> simp [bmWalk.eq_def]
    | cons n rest => constructor <;> (rw [bmWalk.eq_def]; simp [poll, h])
  · decide

/-- Witness for `claim_C7_cancellation` at concrete inputs. -/
theorem claim_C7_cancellation_witness :
    (coordinatorProcess envScenario ⟨7, [], []⟩).opened = [] ∧
    (rowLoop (fun _ => true) 1 "B" (fun t => t)
        [{ url := "u", raw := 1 }] ⟨0, [], []⟩).gateIn = [] ∧
    (bmWalk envScenario 1 "B" [.urlNode "u" (some 5)] ⟨9, [], []⟩).gateIn = [] := by
  refine ⟨?_, ?_, ?_⟩
  · exact (claim_C7_cancellation.1 envScenario ⟨7, [], []⟩
      (by intro m n hmn hm
          simp only [envScenario, decide_eq_true_eq] at hm ⊢
          omega) (by decide)).1
  · exact (claim_C7_cancellation.2.1 (fun _ => true) 1 "B" (fun t => t)
      [{ url := "u", raw := 1 }] ⟨0, [], []⟩ rfl).1
  · exact (claim_C7_cancellation.2.2.1 envScenario 1 "B"
      [.urlNode "u" (some 5)] ⟨9, [], []⟩ (by decide)).1

/-! ## Scratch-copy lifecycle (C2).

Every sqlite reader materializes its source to a temp-directory scratch
copy (`ContentUtils.writeToFile`), then connects, queries, loops rows, and
finally runs `stmt.close() / dbConn.close() / File(temp_db_path).delete()`
— but the deletion is the last statement of the `try` block, not a
`finally`: the `except SQLException` / `except Exception` handlers only
log.  `parse_chromium_history_database`, `parse_chromium_downloads_database`,
`parse_chromium_logins_database`, `parse_chromium_favicons_database`,
`parse_firefox_downloads_database` and `parse_safari_history_database`
share this structure line for line; `parse_firefox_places_database`
differs in that its three sub-parsers catch their own `SQLException`s, so
a sub-query failure still reaches the deletion. -/

/-- How one reader invocation goes after the scratch copy is written:
the JDBC connect raises, the query raises, or `n` rows are processed and
then optionally an exception is raised mid-read before the loop ends. -/
inductive DbEvent where
  | connectFail
  | queryFail
  | rowsThen (n : Nat) (midFail : Bool)
deriving DecidableEq, Repr

/-- Scratch state after the row loop: a cancellation poll that reads true
breaks out to `close`/`delete` (scratch removed); finishing all rows with
a mid-read exception jumps to the handler (scratch remains); finishing
clean reaches `delete`. -/
def rowsScratchRemains (sig : Nat → Bool) : Nat → Nat → Bool → Bool
  | _, 0, mid => mid
  | polls, n + 1, mid =>
      if sig polls then false else rowsScratchRemains sig (polls + 1) n mid

/-- Whether the scratch copy still exists when a chromium/safari-style
sqlite reader returns. -/
def sqliteScratchRemains (sig : Nat → Bool) (polls : Nat) : DbEvent → Bool
  | .connectFail => true
  | .queryFail => true
  | .rowsThen n mid => rowsScratchRemains sig polls n mid

/-- How one `parse_firefox_places_database` invocation goes after the
scratch copy is written: connect raises; or the three sub-parsers run,
each absorbing its own `SQLException` (`histSqlFail`/`bmSqlFail`/
`dlSqlFail`), in which case the deletion is reached (cancellation breaks
inside the sub-parsers also fall through to it); or a non-SQL exception
escapes a sub-parser into the places-level handler. -/
inductive FfEvent where
  | connectFail
  | subQueries (histSqlFail bmSqlFail dlSqlFail : Bool)
  | hardFail
deriving DecidableEq, Repr

def firefoxPlacesScratchRemains : FfEvent → Bool
  | .connectFail => true
  | .subQueries _ _ _ => false
  | .hardFail => true

/-- C2 counterexample: a query failure (SQLException on `executeQuery`)
returns with the scratch copy still present — the exit path exists and the
claim's guarantee fails on it. -/
theorem claim_C2_counterexample :
    sqliteScratchRemains (fun _ => false) 0 DbEvent.queryFail = true := by decide

/-- C2 amended: the scratch copy is deleted on the success path and on a
cancellation break (and, for the Firefox places reader, also when
sub-queries fail with SQLExceptions, since those are caught inside the
sub-parsers); it is NOT deleted — it remains in the temp directory — when
the connect or the query raises, or when a mid-read exception escapes the
row loop: the deletion is not in a `finally`. -/
theorem claim_C2_amended :
    (∀ (sig : Nat → Bool) (polls : Nat),
        sqliteScratchRemains sig polls DbEvent.connectFail = true) ∧
    (∀ (sig : Nat → Bool) (polls : Nat),
        sqliteScratchRemains sig polls DbEvent.queryFail = true) ∧
    (∀ (sig : Nat → Bool) (polls n : Nat) (mid : Bool),
        sqliteScratchRemains sig polls (DbEvent.rowsThen n mid)
          = (mid && decide (∀ i < n, sig (polls + i) = false))) ∧
    firefoxPlacesScratchRemains FfEvent.connectFail = true ∧
    firefoxPlacesScratchRemains FfEvent.hardFail = true ∧
    (∀ hq bq dq : Bool,
        firefoxPlacesScratchRemains (FfEvent.subQueries hq bq dq) = false) := by
  refine ⟨fun _ _ => rfl, fun _ _ => rfl, ?_, rfl, rfl, fun _ _ _ => rfl⟩
  intro sig polls n mid
  show rowsScratchRemains sig polls n mid = _
  induction n generalizing polls with
  | zero =>
      rw [decide_eq_true (fun i hi => absurd hi (Nat.not_lt_zero i)),
        Bool.and_true]
      rfl
  | succ n ih =>
      have hstep : rowsScratchRemains sig polls (n + 1) mid
          = if sig polls then false
            else rowsScratchRemains sig (polls + 1) n mid := rfl
      by_cases hscase : sig polls = true
      · have hnot : ¬(∀ i < n + 1, sig (polls + i) = false) := by
          intro hall
          have h0 := hall 0 (by omega)
          rw [Nat.add_zero] at h0
          rw [h0] at hscase
          cases hscase
        rw [hstep, if_pos hscase, decide_eq_false hnot, Bool.and_false]
      · have hs' : sig polls = false := by simpa using hscase
        rw [hstep, if_neg hscase, ih]
        have hiff : (∀ i < n, sig (polls + 1 + i) = false)
            ↔ (∀ i < n + 1, sig (polls + i) = false) := by
          constructor
          · intro hall i hi
            cases i with
            | zero => rw [Nat.add_zero]; exact hs'
            | succ j =>
                have hj := hall j (by omega)
                have heq : polls + 1 + j = polls + (j + 1) := by omega
                rw [heq] at hj
                exact hj
          · intro hall i hi
            have hj := hall (i + 1) (by omega)
            have heq : polls + (i + 1) = polls + 1 + i := by omega
            rw [heq] at hj
            exact hj
        rw [decide_eq_decide.mpr hiff]

end PhishingDetector

